import Mathlib

/-!
# tcpmeter: payload workers, dispatcher sampling, command loop and payload server

A shallow embedding of the measurement engine of `tcpmeter` (`client.go`,
`server.go`, with the value types of `admui.go`).

Conventions of the embedding:

* Go `uint64` values are natural numbers; every addition and multiplication
  that the source performs on `uint64` is reduced modulo `U64 = 2 ^ 64`.
  A subtraction is written with truncated subtraction only where the source
  guards it (`n < nbytes` before `nbytes - n`).
* Network and channel behaviour is an explicit environment: the result of
  `net.Dial`, of every `Read`/`Write` call, and whether a value is ready on the
  stop channel each time the worker polls it.
* What a worker does to the outside is a list of `Effect`s in program order.
* Loops are run by a fuel-indexed runner; a result of `none` means the fuel ran
  out before the loop was left.
-/

namespace TCPMeter

/-! ## Machine integers -/

/-- Modulus of Go `uint64` arithmetic. -/
def U64 : Nat := 2 ^ 64

/-! ## Payload workers (client.go, lines 11-133) -/

/-- Chunk size, `pktsize := uint64(8 * 1024)`. -/
def pktsize : Nat := (8 * 1024) % U64

/-- Report threshold, `every := uint64(16 * pktsize)`. -/
def every : Nat := (16 * pktsize) % U64

/-- Observable effects of a worker, in program order. -/
inductive Effect where
  /-- `conn.Write(buf)` with `len(buf) = len`, returning the count `nw`. -/
  | write (len : Nat) (nw : Nat)
  /-- `conn.Read(buf)` returning the count `nr`. -/
  | read (nr : Nat)
  /-- `cch <- v`. -/
  | report (v : Nat)
  /-- The deferred `conn.Close()`. -/
  | closeConn
  /-- The deferred `close(cch)`. -/
  | closeSink
  deriving DecidableEq, Repr

/-- Environment of one `Work` run. -/
structure Conn where
  /-- Whether `net.Dial` returns a nil error. -/
  dialOk : Bool
  /-- Result `(count, err != nil)` of the `k`-th `Read`/`Write` call, given
  the length of the buffer passed to it. -/
  xfer : Nat → Nat → Nat × Bool
  /-- Whether a value is ready on `sch` at the `k`-th `select`. -/
  stop : Nat → Bool

/-- How one pass through a `for` statement ends. -/
inductive Outcome (σ : Type) where
  /-- The body ran to its end and the post statement was applied. -/
  | next (s : σ)
  /-- The loop was left: its condition was false, or a `break` ran. -/
  | leave (s : σ)
  /-- A `return` ran inside the body. -/
  | ret
  deriving DecidableEq, Repr

/-- Loop variables of `TCPSender.Work`. -/
structure SendState where
  /-- Loop counter `n`: bytes written so far. -/
  n : Nat
  /-- Variable `incr`. -/
  incr : Nat
  /-- Current `len(buf)`. -/
  buf : Nat
  /-- Number of `Write` calls (and `select`s) made so far. -/
  k : Nat
  deriving DecidableEq, Repr

/-- One pass of the `for n := uint64(0); n < nbytes; n += uint64(nw)` loop of
`TCPSender.Work` (client.go, lines 51-74). -/
def senderIter (c : Conn) (nbytes : Nat) (s : SendState) : List Effect × Outcome SendState :=
  if s.n < nbytes then
    let small := nbytes - s.n < pktsize
    let incr := if small then nbytes - s.n else s.incr
    let buf := if small then incr else s.buf
    let r := c.xfer s.k buf
    if r.2 then
      ([Effect.write buf r.1], Outcome.ret)
    else if r.1 ≠ buf then
      ([Effect.write buf r.1], Outcome.ret)
    else if c.stop s.k then
      ([Effect.write buf r.1], Outcome.ret)
    else
      let rep := if ((s.n + incr) % U64) % every = 0 then [Effect.report every] else []
      (Effect.write buf r.1 :: rep, Outcome.next ⟨(s.n + r.1) % U64, incr, buf, s.k + 1⟩)
  else
    ([], Outcome.leave s)

/-- The sender loop: passes are run until the loop is left or returns. The
second component is the state at the loop exit, or `none` after a `return`. -/
def senderLoop (c : Conn) (nbytes : Nat) : Nat → SendState → Option (List Effect × Option SendState)
  | 0, _ => none
  | fuel + 1, s =>
    match senderIter c nbytes s with
    | (es, Outcome.next s') => (senderLoop c nbytes fuel s').map (fun r => (es ++ r.1, r.2))
    | (es, Outcome.leave s') => some (es, some s')
    | (es, Outcome.ret) => some (es, none)

/-- `TCPSender.Work` (client.go, lines 32-76). Every pass that continues
advances `n` by at least one, so `nbytes + 1` passes always suffice. -/
def TCPSender.Work (c : Conn) (nbytes : Nat) : Option (List Effect) :=
  if c.dialOk then
    match senderLoop c nbytes (nbytes + 1) ⟨0, pktsize, pktsize, 0⟩ with
    | none => none
    | some (es, some s) => some (es ++ [Effect.report s.incr, Effect.closeConn, Effect.closeSink])
    | some (es, none) => some (es ++ [Effect.closeConn, Effect.closeSink])
  else
    some [Effect.closeSink]

/-- Loop variables of `TCPReceiver.Work`. -/
structure RecvState where
  /-- Loop counter `n`: bytes read so far (modulo `U64`). -/
  n : Nat
  /-- Variable `chkpt`: bytes read since the last report. -/
  chkpt : Nat
  /-- Number of `Read` calls (and `select`s) made so far. -/
  k : Nat
  deriving DecidableEq, Repr

/-- One pass of the `for n := uint64(0); n < nbytes; n += uint64(nw)` loop of
`TCPReceiver.Work` (client.go, lines 113-131). `break L` leaves the loop
without running the post statement. -/
def receiverIter (c : Conn) (nbytes : Nat) (s : RecvState) : List Effect × Outcome RecvState :=
  if s.n < nbytes then
    let r := c.xfer s.k pktsize
    if r.2 then
      ([Effect.read r.1], Outcome.ret)
    else
      let chkpt := (s.chkpt + r.1) % U64
      if c.stop s.k then
        ([Effect.read r.1], Outcome.leave ⟨s.n, chkpt, s.k⟩)
      else if every ≤ chkpt then
        ([Effect.read r.1, Effect.report chkpt], Outcome.next ⟨(s.n + r.1) % U64, 0, s.k + 1⟩)
      else
        ([Effect.read r.1], Outcome.next ⟨(s.n + r.1) % U64, chkpt, s.k + 1⟩)
  else
    ([], Outcome.leave s)

/-- The receiver loop: passes are run until the loop is left or returns. The
second component is the state at the loop exit, or `none` after a `return`. -/
def receiverLoop (c : Conn) (nbytes : Nat) :
    Nat → RecvState → Option (List Effect × Option RecvState)
  | 0, _ => none
  | fuel + 1, s =>
    match receiverIter c nbytes s with
    | (es, Outcome.next s') => (receiverLoop c nbytes fuel s').map (fun r => (es ++ r.1, r.2))
    | (es, Outcome.leave s') => some (es, some s')
    | (es, Outcome.ret) => some (es, none)

/-- `TCPReceiver.Work` (client.go, lines 93-133), run for at most `fuel`
passes of its loop (a `Read` may return 0 bytes, so the loop need not end). -/
def TCPReceiver.Work (c : Conn) (nbytes : Nat) (fuel : Nat) : Option (List Effect) :=
  if c.dialOk then
    match receiverLoop c nbytes fuel ⟨0, 0, 0⟩ with
    | none => none
    | some (es, some s) => some (es ++ [Effect.report s.chkpt, Effect.closeConn, Effect.closeSink])
    | some (es, none) => some (es ++ [Effect.closeConn, Effect.closeSink])
  else
    some [Effect.closeSink]

/-! ## Value types (admui.go, lines 11-56) -/

/-- `SrvConfig`: the far-end server and the byte goal. -/
structure SrvConfig where
  /-- Field `Host`. -/
  Host : String
  /-- Field `RPCPort`. -/
  RPCPort : String
  /-- Field `Count` (`uint64`). -/
  Count : Nat
  /-- Field `Repeat`. -/
  Repeat : Bool
  deriving DecidableEq, Repr

/-- `Command`: what `TCPClient` is asked to do. -/
structure Command where
  /-- Field `Name`. -/
  Name : String
  /-- Field `Cfg`. -/
  Cfg : SrvConfig
  deriving DecidableEq, Repr

/-- `Stats`: a measurement report; `Typ` is the field `Type`, `Rate` a
`BitRate` (`uint64`). -/
structure Stats where
  /-- Field `Stat`. -/
  Stat : String
  /-- Field `Type`. -/
  Typ : String
  /-- Field `Rate`. -/
  Rate : Nat
  deriving DecidableEq, Repr

/-! ## Dispatch (client.go, lines 135-238) -/

/-- What `Dispatch` and `TCPClient` do to their channels. -/
inductive ClientEffect where
  /-- `select { case ch <- s: default: }`, with whether the send went through. -/
  | trySend (s : Stats) (sent : Bool)
  /-- The blocking `ch <- s`. -/
  | send (s : Stats)
  /-- `Done <- true`. -/
  | done
  /-- `close(sch)`. -/
  | closeStats
  deriving DecidableEq, Repr

/-- `uint64(t1.Sub(t0).Nanoseconds())` for clock readings in nanoseconds: the
signed difference converted to `uint64`. -/
def nanosBetween (t0 t1 : Nat) : Nat :=
  (((t1 : Int) - (t0 : Int)) % (U64 : Int)).toNat

/-- The closure `bps` (client.go, lines 175-178):
`BitRate(n * uint64(8e9) / uint64(t1.Sub(t0).Nanoseconds()))`. The product is
a `uint64` product; a zero divisor is a run-time panic, here `none`. -/
def bps (n t0 t1 : Nat) : Option Nat :=
  if nanosBetween t0 t1 = 0 then none
  else some ((n * 8000000000) % U64 / nanosBetween t0 t1)

/-- The closure `avg` (client.go, lines 179-185): the `uint64` sum of the
slice divided by its length; on an empty slice the division panics. -/
def avg (s : List Nat) : Option Nat :=
  if s.length % U64 = 0 then none
  else some (s.foldl (fun t x => (t + x) % U64) 0 / (s.length % U64))

/-- Variables of `Dispatch` that the sampling loop changes. -/
structure DispState where
  /-- Total bytes reported, `tcnt`. -/
  tcnt : Nat
  /-- Bytes reported since the last sample, `lcnt`. -/
  lcnt : Nat
  /-- Clock reading of the last sample, `t1`. -/
  t1 : Nat
  /-- The slice `samples`. -/
  samples : List Nat
  /-- The last window average, `br`. -/
  br : Nat
  deriving DecidableEq, Repr

/-- Lines 191-194 of `addsamp`: `samples = append(samples, xr)`, then the
slice is cut to its last 20 elements when it is longer. -/
def appendSample (samples : List Nat) (xr : Nat) : List Nat :=
  let samples := samples ++ [xr]
  if samples.length > 20 then samples.drop (samples.length - 20) else samples

/-- The closure `addsamp` (client.go, lines 186-195), with `tn` the reading of
`time.Now()`. -/
def addsamp (st : DispState) (tn : Nat) : Option DispState :=
  match bps st.lcnt st.t1 tn with
  | none => none
  | some xr => some { st with lcnt := 0, t1 := tn, samples := appendSample st.samples xr }

/-- What a `select` of the sampling loop receives. -/
inductive Event where
  /-- A tick of `timer`; `tn` is the clock reading taken in `addsamp`, `room`
  tells whether the channel send of the pass goes through: for the
  publication, whether `ch` can take a value without blocking; for a pass that
  sends on `Done` instead, whether the worker ever receives the value. -/
  | tick (tn : Nat) (room : Bool)
  /-- A byte count received from `Res`. -/
  | count (c : Nat)
  /-- `Res` is closed; `tn` is the clock reading taken in `addsamp`. -/
  | closed (tn : Nat)
  deriving DecidableEq, Repr

/-- How one pass of the sampling loop ends. -/
inductive Pass where
  /-- The pass ran to its end; the loop goes back to its `select`. -/
  | next (fx : List ClientEffect) (st : DispState)
  /-- `break L1` ran. -/
  | leave (fx : List ClientEffect) (st : DispState)
  /-- The pass is stuck for ever in the send `Done <- true`: `Done` has no
  buffer and nothing receives from it. -/
  | blocked (fx : List ClientEffect) (st : DispState)
  /-- A run-time panic (a division by zero in `bps` or `avg`). -/
  | panicked
  deriving DecidableEq, Repr

/-- One pass of the loop `L1` (client.go, lines 199-224) on the event `e`.
The send `Done <- true` of line 206 is a blocking send on a channel without
buffer: `break L1` is reached only if the worker receives the value. -/
def samplingIter (name : String) (cfgCount : Nat) (st : DispState) (e : Event) : Pass :=
  match e with
  | Event.tick tn room =>
    match addsamp st tn with
    | none => Pass.panicked
    | some st1 =>
      match avg st1.samples with
      | none => Pass.panicked
      | some br =>
        let st2 := { st1 with br := br }
        if cfgCount ≤ st2.tcnt then
          if room then Pass.leave [ClientEffect.done] st2 else Pass.blocked [] st2
        else
          Pass.next [ClientEffect.trySend ⟨"Running", name, br⟩ room] st2
  | Event.count c =>
    Pass.next [] { st with tcnt := (st.tcnt + c) % U64, lcnt := (st.lcnt + c) % U64 }
  | Event.closed tn =>
    match addsamp st tn with
    | none => Pass.panicked
    | some st1 =>
      match avg st1.samples with
      | none => Pass.panicked
      | some br => Pass.leave [] { st1 with br := br }

/-- How far a run of the sampling loop on a list of events gets. -/
inductive Run where
  /-- Every event was handled and the loop is back at its `select`. -/
  | waiting (fx : List ClientEffect) (st : DispState)
  /-- The loop was left; `unread` are the events it did not get to. -/
  | left (fx : List ClientEffect) (st : DispState) (unread : List Event)
  /-- A run-time panic. -/
  | panicked (fx : List ClientEffect)
  /-- The loop is stuck for ever in the send `Done <- true`. -/
  | blocked (fx : List ClientEffect) (st : DispState)
  deriving DecidableEq, Repr

/-- Effects of a run put after the effects `fx` that came before it. -/
def Run.after (fx : List ClientEffect) : Run → Run
  | Run.waiting fx2 st => Run.waiting (fx ++ fx2) st
  | Run.left fx2 st unread => Run.left (fx ++ fx2) st unread
  | Run.panicked fx2 => Run.panicked (fx ++ fx2)
  | Run.blocked fx2 st => Run.blocked (fx ++ fx2) st

/-- The loop `L1` run on a list of events. -/
def samplingLoop (name : String) (cfgCount : Nat) : List Event → DispState → Run
  | [], st => Run.waiting [] st
  | e :: es, st =>
    match samplingIter name cfgCount st e with
    | Pass.panicked => Run.panicked []
    | Pass.next fx st1 => (samplingLoop name cfgCount es st1).after fx
    | Pass.leave fx st1 => Run.left fx st1 es
    | Pass.blocked fx st1 => Run.blocked fx st1

/-- The slice `samples` a run ends with (empty after a panic). -/
def Run.window : Run → List Nat
  | Run.waiting _ st => st.samples
  | Run.left _ st _ => st.samples
  | Run.panicked _ => []
  | Run.blocked _ st => st.samples

/-- The variables at the entry of the loop: `samples := make([]BitRate, 1, 21)`
is a slice holding one zero, the counters are zero and `t1 := t0`. -/
def DispState.init (t0 : Nat) : DispState :=
  ⟨0, 0, t0, [0], 0⟩

/-- How a call of `Dispatch` that reached its loop ends. -/
inductive DispatchEnd where
  /-- It returned; `fx` are its channel effects, `average` the session average
  it logs, `err` whether the returned error is non-nil. -/
  | returned (fx : List ClientEffect) (average : Nat) (err : Bool)
  /-- It is still in the loop, waiting at the `select`. -/
  | waiting (fx : List ClientEffect)
  /-- A run-time panic. -/
  | panicked (fx : List ClientEffect)
  /-- It is stuck for ever: in the send `Done <- true` of the loop, or in the
  receive `<-aRcv.Done` after it. -/
  | blocked (fx : List ClientEffect)
  deriving DecidableEq, Repr

/-- `Dispatch` from `t0 := time.Now()` (line 173) to its return: the loop,
the blocking publication of line 226, the receive `<-aRcv.Done` of line 228,
which waits until the remote call completes (`remoteDone` tells whether it
ever does), the session average of line 229 with `tEnd` the clock reading
there, and the `TCPStop` call whose error (`stopErr`) is returned. -/
def Dispatch (name : String) (cfgCount : Nat) (t0 : Nat) (events : List Event)
    (remoteDone : Bool) (tEnd : Nat) (stopErr : Bool) : DispatchEnd :=
  match samplingLoop name cfgCount events (DispState.init t0) with
  | Run.waiting fx _ => DispatchEnd.waiting fx
  | Run.panicked fx => DispatchEnd.panicked fx
  | Run.blocked fx _ => DispatchEnd.blocked fx
  | Run.left fx st _ =>
    if remoteDone then
      match bps st.tcnt t0 tEnd with
      | none => DispatchEnd.panicked (fx ++ [ClientEffect.send ⟨"Running", name, st.br⟩])
      | some average =>
        DispatchEnd.returned (fx ++ [ClientEffect.send ⟨"Running", name, st.br⟩]) average
          stopErr
    else
      DispatchEnd.blocked (fx ++ [ClientEffect.send ⟨"Running", name, st.br⟩])

/-! ## TCPClient (client.go, lines 243-281) -/

/-- The two implementations of the interface `TCPWorker`; the string is the
value of the type (`TCPSender` and `TCPReceiver` are string types). -/
inductive TCPWorker where
  /-- `TCPSender(rpc)`. -/
  | sender (rpc : String)
  /-- `TCPReceiver(rpc)`. -/
  | receiver (rpc : String)
  deriving DecidableEq, Repr

/-- Method `GetName`. -/
def TCPWorker.GetName : TCPWorker → String
  | TCPWorker.sender _ => "UP"
  | TCPWorker.receiver _ => "DOWN"

/-- Method `GetRPC`. -/
def TCPWorker.GetRPC : TCPWorker → String
  | TCPWorker.sender s => s
  | TCPWorker.receiver r => r

/-- The map `ops` of `TCPClient`, as a lookup. -/
def ops (name : String) : Option TCPWorker :=
  if name = "UP" then some (TCPWorker.sender "TCPPerf.TCPRcv")
  else if name = "DOWN" then some (TCPWorker.receiver "TCPPerf.TCPSnd")
  else none

/-- What a `select` of the loop of `TCPClient` receives; `room` tells whether
`sch` can take a value without blocking. -/
inductive ClientEvent where
  /-- A command received from `cch`. -/
  | command (c : Command) (room : Bool)
  /-- `cch` is closed. -/
  | commandsClosed
  /-- A tick of the one-second timer. -/
  | timer (room : Bool)
  deriving DecidableEq, Repr

/-- What `TCPClient` does in one pass of its loop. -/
inductive ClientAction where
  /-- The call `Dispatch(sch, c.Cfg, worker)`. -/
  | dispatch (cfg : SrvConfig) (worker : TCPWorker)
  /-- An effect on `sch` made by `TCPClient` itself. -/
  | effect (e : ClientEffect)
  deriving DecidableEq, Repr

/-- One pass of the loop `L` of `TCPClient` (client.go, lines 253-280). An
unset `Rate` is the zero value. -/
def clientIter (e : ClientEvent) : List ClientAction × Outcome Unit :=
  match e with
  | ClientEvent.commandsClosed =>
    ([ClientAction.effect ClientEffect.closeStats], Outcome.leave ())
  | ClientEvent.command c room =>
    match ops c.Name with
    | some worker => ([ClientAction.dispatch c.Cfg worker], Outcome.next ())
    | none =>
      if c.Name ≠ "STOP" then
        ([ClientAction.effect
            (ClientEffect.trySend ⟨"Error", "Illegal command:" ++ c.Name, 0⟩ room)],
          Outcome.next ())
      else ([], Outcome.next ())
  | ClientEvent.timer room =>
    ([ClientAction.effect (ClientEffect.trySend ⟨"Stopped", "", 0⟩ room)], Outcome.next ())

/-- `TCPClient` on a list of events: the actions taken, and whether the loop
was left (the command channel was closed). -/
def TCPClient : List ClientEvent → List ClientAction × Bool
  | [] => ([], false)
  | e :: es =>
    match clientIter e with
    | (acts, Outcome.next _) => (acts ++ (TCPClient es).1, (TCPClient es).2)
    | (acts, _) => (acts, true)

/-! ## Payload server (server.go) -/

/-- The session object `TCPPerf` together with the listeners of the host it
has bound: `LData` is nil or the identity of a listener, `DevNull` and
`DevZero` tell whether those fields are set, `openL` lists the listeners that
are bound and not closed, `bound` counts the listeners bound so far (the
identity of the next one). -/
structure Server where
  /-- Field `LData`. -/
  LData : Option Nat
  /-- Field `DevNull` is non-nil. -/
  DevNull : Bool
  /-- Field `DevZero` is non-nil. -/
  DevZero : Bool
  /-- Listeners bound and not yet closed. -/
  openL : List Nat
  /-- Number of listeners bound so far. -/
  bound : Nat
  deriving DecidableEq, Repr

/-- `perf := new(TCPPerf)` on a host with no payload listener. -/
def Server.new : Server := ⟨none, false, false, [], 0⟩

/-- `p.LData.Close()`: closing a nil or already closed listener changes
nothing (it only returns an error, which the callers drop). -/
def Server.closeLData (s : Server) : Server :=
  match s.LData with
  | none => s
  | some l => { s with openL := s.openL.erase l }

/-- What the network answers to one `TCPStart`. -/
structure StartEnv where
  /-- `SrvAddr.IP` printed, when it is non-nil. -/
  srvIP : Option String
  /-- Whether `net.ResolveTCPAddr` succeeds on the address. -/
  resolve : String → Bool
  /-- The port `net.ListenTCP` binds on the address, or `none` on error. -/
  listen : String → Option Nat

/-- `TCPStart` (server.go, lines 34-70): the new state, the value left in
`*r` (the port; `none` when it was not written) and the error. -/
def TCPStart (s : Server) (env : StartEnv) : Server × Option Nat × Option String :=
  let s1 := { s.closeLData with DevNull := true, DevZero := true }
  let addr := match env.srvIP with
    | some ip => ip ++ ":0"
    | none => "localhost:0"
  if env.resolve addr then
    match env.listen addr with
    | none => ({ s1 with LData := none }, none, some "ListenTCP")
    | some port =>
      ({ s1 with LData := some s1.bound, openL := s1.bound :: s1.openL, bound := s1.bound + 1 },
        some port, none)
  else
    (s1, none, some "ResolveTCPAddr")

/-- `TCPStop` (server.go, lines 73-80): the new state, the value left in `*r`
and the error. -/
def TCPStop (s : Server) : Server × Bool × Option String :=
  ({ s.closeLData with LData := none }, true, none)

/-- How the accept of `timedaccept` and its five-second timer play out. -/
inductive Accept where
  /-- A client connects; the timer goroutine takes the value sent on `stop`. -/
  | conn
  /-- `AcceptTCP` fails on its own before the timer fires. -/
  | fails
  /-- The timer fires first and closes the listener, so `AcceptTCP` fails; the
  timer goroutine is gone and the send on `stop` blocks for ever. -/
  | timeout
  /-- A client connects, but the timer fires before the send on `stop`: the
  listener is closed and the send on `stop` blocks for ever. -/
  | connLate
  deriving DecidableEq, Repr

/-- What a payload call does to sockets. -/
inductive SrvEffect where
  /-- `p.LData.AcceptTCP()` was called on the listener. -/
  | accept (l : Nat)
  /-- The deferred `conn.Close()`. -/
  | closeConn
  deriving DecidableEq, Repr

/-- How a remote call ends. -/
inductive Reply where
  /-- The call returned with `*r = r` and the error `err`. -/
  | returned (r : Nat) (err : Option String)
  /-- The call never returns. -/
  | blocked
  deriving DecidableEq, Repr

/-- How `timedaccept` ends. -/
inductive Accepted where
  /-- It returned a connection and a nil error. -/
  | conn
  /-- It returned a nil connection and the error. -/
  | err (e : String)
  /-- It never returns. -/
  | blocked
  deriving DecidableEq, Repr

/-- `timedaccept` (server.go, lines 84-107). On a listener that is already
closed `AcceptTCP` fails at once. -/
def timedaccept (s : Server) (a : Accept) : Server × Accepted × List SrvEffect :=
  match s.LData with
  | none => (s, Accepted.err "No Payload TCP Listener", [])
  | some l =>
    if l ∈ s.openL then
      match a with
      | Accept.conn => (s, Accepted.conn, [SrvEffect.accept l])
      | Accept.fails => (s, Accepted.err "AcceptTCP", [SrvEffect.accept l])
      | Accept.timeout => (s.closeLData, Accepted.blocked, [SrvEffect.accept l])
      | Accept.connLate => (s.closeLData, Accepted.blocked, [SrvEffect.accept l])
    else
      (s, Accepted.err "AcceptTCP", [SrvEffect.accept l])

/-- The conversion `int64(n)` of a `uint64`. -/
def toInt64 (n : Nat) : Int :=
  if n % U64 < 2 ^ 63 then ((n % U64 : Nat) : Int) else ((n % U64 : Nat) : Int) - (U64 : Int)

/-- The conversion `uint64(x)` of an `int64`. -/
def ofInt64 (x : Int) : Nat :=
  (x % (U64 : Int)).toNat

/-- The common body of `TCPRcv` and `TCPSnd` (server.go, lines 112-151): they
differ only in the direction of `io.CopyN`. `copyN` gives what `io.CopyN`
returns for the count it is asked: the bytes copied and whether the error is
non-nil. -/
def transfer (s : Server) (n : Nat) (a : Accept) (copyN : Int → Int × Bool) :
    Server × Reply × List SrvEffect :=
  match timedaccept s a with
  | (s1, Accepted.err e, fx) => (s1, Reply.returned 0 (some e), fx)
  | (s1, Accepted.blocked, fx) => (s1, Reply.blocked, fx)
  | (s1, Accepted.conn, fx) =>
    let res := copyN (toInt64 n)
    if res.2 then (s1, Reply.returned 0 (some "CopyN"), fx ++ [SrvEffect.closeConn])
    else (s1, Reply.returned (ofInt64 res.1) none, fx ++ [SrvEffect.closeConn])

/-- `TCPRcv` (server.go, lines 112-129): `io.CopyN(p.DevNull, conn, int64(n))`. -/
def TCPRcv (s : Server) (n : Nat) (a : Accept) (copyN : Int → Int × Bool) :
    Server × Reply × List SrvEffect :=
  transfer s n a copyN

/-- `TCPSnd` (server.go, lines 134-151): `io.CopyN(conn, p.DevZero, int64(n))`. -/
def TCPSnd (s : Server) (n : Nat) (a : Accept) (copyN : Int → Int × Bool) :
    Server × Reply × List SrvEffect :=
  transfer s n a copyN

/-- A remote call on the session, with what the network answers to it. -/
inductive Call where
  /-- `TCPPerf.TCPStart`. -/
  | start (env : StartEnv)
  /-- `TCPPerf.TCPStop`. -/
  | stop
  /-- `TCPPerf.TCPRcv`. -/
  | rcv (n : Nat) (a : Accept) (copyN : Int → Int × Bool)
  /-- `TCPPerf.TCPSnd`. -/
  | snd (n : Nat) (a : Accept) (copyN : Int → Int × Bool)

/-- Whether the call is a `TCPStart`. -/
def Call.isStart : Call → Bool
  | Call.start _ => true
  | _ => false

/-- Whether the call is a `TCPRcv` or a `TCPSnd`. -/
def Call.isTransfer : Call → Bool
  | Call.rcv _ _ _ => true
  | Call.snd _ _ _ => true
  | _ => false

/-- One call served by the session: the new state, the reply (for `TCPStart`
and `TCPStop` the value of `*r` is not kept: 0) and the socket effects. -/
def serve (s : Server) : Call → Server × Reply × List SrvEffect
  | Call.start env => ((TCPStart s env).1, Reply.returned 0 (TCPStart s env).2.2, [])
  | Call.stop => ((TCPStop s).1, Reply.returned 0 (TCPStop s).2.2, [])
  | Call.rcv n a copyN => TCPRcv s n a copyN
  | Call.snd n a copyN => TCPSnd s n a copyN

/-- The calls of a control client served one after the other: the final
state and, for each call, its reply and socket effects. -/
def serveAll : Server → List Call → Server × List (Reply × List SrvEffect)
  | s, [] => (s, [])
  | s, c :: cs =>
    ((serveAll (serve s c).1 cs).1, (serve s c).2 :: (serveAll (serve s c).1 cs).2)

/-! ## Projections of traces, run conditions and sample inputs -/

/-- Clock readings that strictly increase from `t` on and fit in an `int64`. -/
def increasingFrom (t : Nat) : List Nat → Bool
  | [] => true
  | x :: xs => decide (t < x) && decide (x < 2 ^ 63) && increasingFrom x xs

/-- A publication attempt of a `Running` event for the test `name`. -/
def isRunningTry (name : String) (x : ClientEffect) : Prop :=
  ∃ r room, x = ClientEffect.trySend ⟨"Running", name, r⟩ room

/-- Values sent on the report channel, in order. -/
def reports : List Effect → List Nat
  | [] => []
  | Effect.report v :: es => v :: reports es
  | _ :: es => reports es

/-- Byte counts returned by the `Write` calls, in order. -/
def writes : List Effect → List Nat
  | [] => []
  | Effect.write _ nw :: es => nw :: writes es
  | _ :: es => writes es

/-- Byte counts returned by the `Read` calls, in order. -/
def reads : List Effect → List Nat
  | [] => []
  | Effect.read nr :: es => nr :: reads es
  | _ :: es => reads es

/-- A connection on which the dial succeeds, every transfer moves the whole
buffer without error, and the stop channel stays empty. -/
def idealConn : Conn := ⟨true, fun _ len => (len, false), fun _ => false⟩

/-- An answer to `TCPStart` on which the bind succeeds on port 40001. -/
def goodStart : StartEnv := ⟨none, fun _ => true, fun _ => some 40001⟩

/-- The chunk sizes of an error-free transfer of `m` bytes: full chunks of
`pktsize`, then the remainder when there is one. -/
def chunks (m : Nat) : List Nat :=
  List.replicate (m / pktsize) pktsize ++ (if m % pktsize = 0 then [] else [m % pktsize])

/-- The value of `incr` after an error-free transfer of `m` bytes. -/
def lastChunk (m : Nat) : Nat :=
  if m % pktsize = 0 then pktsize else m % pktsize

/-- An error-free, unstopped run: the dial succeeds, every `Read`/`Write`
moves the whole buffer with a nil error, and nothing arrives on `sch`. -/
structure Conn.Clean (c : Conn) : Prop where
  /-- `net.Dial` succeeds. -/
  dial : c.dialOk = true
  /-- No transfer fails or is short. -/
  full : ∀ k len, c.xfer k len = (len, false)
  /-- No stop signal. -/
  quiet : ∀ k, c.stop k = false

/-- The effects of a trace that touch the report sink: the reports and the
close. -/
def sinkEffects : List Effect → List Effect
  | [] => []
  | Effect.report v :: es => Effect.report v :: sinkEffects es
  | Effect.closeSink :: es => Effect.closeSink :: sinkEffects es
  | _ :: es => sinkEffects es

/-- The trace described for an error-free sender loop that writes the chunks
`cs` after `acc` bytes: each chunk is written whole, and a report of `every`
follows each write that brings the bytes written to a multiple of `every`. -/
def chunkTrace (acc : Nat) : List Nat → List Effect
  | [] => []
  | ch :: cs =>
    Effect.write ch ch :: (if (acc + ch) % every = 0 then [Effect.report every] else []) ++
      chunkTrace (acc + ch) cs

/-- What `TCPStart` does to listeners. -/
inductive StartEffect where
  /-- `p.LData.Close()` on the listener. -/
  | closeListener (l : Nat)
  /-- `net.ListenTCP` bound the listener. -/
  | listen (l : Nat)
  deriving DecidableEq, Repr

/-- The listener operations of `TCPStart` (server.go, lines 36-38 and 57), in
program order. -/
def startEffects (s : Server) (env : StartEnv) : List StartEffect :=
  let closing := match s.LData with
    | some l => [StartEffect.closeListener l]
    | none => []
  let addr := match env.srvIP with
    | some ip => ip ++ ":0"
    | none => "localhost:0"
  if env.resolve addr then
    match env.listen addr with
    | none => closing
    | some _ => closing ++ [StartEffect.listen s.closeLData.bound]
  else
    closing

/-- Whether the address is resolved and the bind succeeds in this answer to
`TCPStart`. -/
def StartEnv.binds (env : StartEnv) : Bool :=
  let addr := match env.srvIP with
    | some ip => ip ++ ":0"
    | none => "localhost:0"
  env.resolve addr && (env.listen addr).isSome

/-- Whether the call is a `TCPStop` or a `TCPStart` whose bind succeeds. -/
def Call.startOrStop : Call → Bool
  | Call.start env => env.binds
  | Call.stop => true
  | _ => false

/-- A connection on which the dial fails. -/
def deadConn : Conn := ⟨false, fun _ len => (len, false), fun _ => false⟩

/-- A connection on which the second transfer fails without moving a byte
(the peer closed the connection: `Read` returns 0 and `io.EOF`). -/
def eofConn : Conn := ⟨true, fun k len => if k = 1 then (0, true) else (len, false),
  fun _ => false⟩

/-- A trace without close: its sink effects are its reports. -/
def OnlyReports (es : List Effect) : Prop :=
  sinkEffects es = (reports es).map Effect.report

/-- The session holds at most the listener of its field open, and that
listener is the one bound last. -/
def Server.tidy (s : Server) : Prop :=
  s.openL = s.LData.toList ∧ ∀ l, s.LData = some l → l + 1 = s.bound

/-! ## Basic facts -/

theorem pktsize_eq : pktsize = 8192 := by
  norm_num [pktsize, U64]

theorem every_eq : every = 131072 := by
  norm_num [every, pktsize, U64]

theorem U64_eq : U64 = 18446744073709551616 := by
  norm_num [U64]

@[simp] theorem writes_append (a b : List Effect) : writes (a ++ b) = writes a ++ writes b := by
  induction a with
  | nil => rfl
  | cons e a ih => cases e <;> simp [writes, ih]

@[simp] theorem reports_append (a b : List Effect) : reports (a ++ b) = reports a ++ reports b := by
  induction a with
  | nil => rfl
  | cons e a ih => cases e <;> simp [reports, ih]

@[simp] theorem reads_append (a b : List Effect) : reads (a ++ b) = reads a ++ reads b := by
  induction a with
  | nil => rfl
  | cons e a ih => cases e <;> simp [reads, ih]

theorem writes_ite_report (p : Prop) [Decidable p] (v : Nat) :
    writes (if p then [Effect.report v] else []) = [] := by
  split <;> rfl

theorem reports_ite_report (p : Prop) [Decidable p] (v : Nat) :
    reports (if p then [Effect.report v] else []) = if p then [v] else [] := by
  split <;> rfl

theorem writes_write_cons (len nw : Nat) (es : List Effect) :
    writes (Effect.write len nw :: es) = nw :: writes es := rfl

theorem reports_write_cons (len nw : Nat) (es : List Effect) :
    reports (Effect.write len nw :: es) = reports es := rfl

theorem chunks_zero : chunks 0 = [] := by
  simp [chunks]

theorem chunks_small (m : Nat) (h0 : 0 < m) (h : m < pktsize) : chunks m = [m] := by
  have h1 : m / pktsize = 0 := Nat.div_eq_of_lt h
  have h2 : m % pktsize = m := Nat.mod_eq_of_lt h
  have h3 : m ≠ 0 := by omega
  simp [chunks, h1, h2, h3]

theorem chunks_step (m : Nat) (h : pktsize ≤ m) : chunks m = pktsize :: chunks (m - pktsize) := by
  have hp : 0 < pktsize := by rw [pktsize_eq]; omega
  obtain ⟨q, rfl⟩ : ∃ q, m = q + pktsize := ⟨m - pktsize, by omega⟩
  have h1 : (q + pktsize) / pktsize = q / pktsize + 1 := Nat.add_div_right q hp
  have h2 : (q + pktsize) % pktsize = q % pktsize := Nat.add_mod_right q pktsize
  have h3 : q + pktsize - pktsize = q := by omega
  unfold chunks
  rw [h1, h2, h3, List.replicate_succ, List.cons_append]

/-- At or past the goal the sender loop is left at once. -/
theorem senderLoop_at_goal (c : Conn) (nbytes fuel : Nat) (s : SendState) (h : nbytes ≤ s.n) :
    senderLoop c nbytes (fuel + 1) s = some ([], some s) := by
  have h1 : ¬ s.n < nbytes := by omega
  simp [senderLoop, senderIter, h1]

/-- A pass of the sender loop with at least a full chunk left to write. -/
theorem senderIter_full (c : Conn) (hc : c.Clean) (nbytes n k : Nat)
    (h : n + pktsize ≤ nbytes) (hu : nbytes < U64) :
    senderIter c nbytes ⟨n, pktsize, pktsize, k⟩ =
      (Effect.write pktsize pktsize ::
          (if (n + pktsize) % every = 0 then [Effect.report every] else []),
        Outcome.next ⟨n + pktsize, pktsize, pktsize, k + 1⟩) := by
  have hp : 0 < pktsize := by rw [pktsize_eq]; omega
  have h1 : n < nbytes := by omega
  have h2 : ¬ nbytes - n < pktsize := by omega
  have h3 : (n + pktsize) % U64 = n + pktsize := Nat.mod_eq_of_lt (by omega)
  simp [senderIter, h1, h2, h3, hc.full, hc.quiet]

/-- The pass of the sender loop that writes the short last chunk. -/
theorem senderIter_last (c : Conn) (hc : c.Clean) (nbytes n k : Nat)
    (h0 : n < nbytes) (h : nbytes - n < pktsize) (hu : nbytes < U64) :
    senderIter c nbytes ⟨n, pktsize, pktsize, k⟩ =
      (Effect.write (nbytes - n) (nbytes - n) ::
          (if nbytes % every = 0 then [Effect.report every] else []),
        Outcome.next ⟨nbytes, nbytes - n, nbytes - n, k + 1⟩) := by
  have h3 : (n + (nbytes - n)) % U64 = nbytes := by
    rw [Nat.add_sub_cancel' (le_of_lt h0)]; exact Nat.mod_eq_of_lt hu
  simp [senderIter, h0, h, h3, hc.full, hc.quiet]

/-- The sender loop on a clean connection, started at a chunk boundary:
it is left at the goal after writing `chunks (nbytes - n)`, having sent one
report of `every` for each multiple of `every` passed. -/
theorem senderLoop_clean (c : Conn) (hc : c.Clean) (nbytes : Nat) (hu : nbytes < U64) :
    ∀ fuel n k, n ≤ nbytes → n % pktsize = 0 → nbytes - n < fuel →
      ∃ es s, senderLoop c nbytes fuel ⟨n, pktsize, pktsize, k⟩ = some (es, some s) ∧
        writes es = chunks (nbytes - n) ∧
        reports es = List.replicate (nbytes / every - n / every) every ∧
        s.n = nbytes ∧ s.incr = lastChunk (nbytes - n) := by
  intro fuel
  induction fuel with
  | zero => intro n k _ _ h; omega
  | succ fuel ih =>
    intro n k hn hm hf
    rw [pktsize_eq] at hm
    rcases Nat.lt_or_ge n nbytes with hlt | hge
    · by_cases hs : nbytes - n < pktsize
      · have hit := senderIter_last c hc nbytes n k hlt hs hu
        obtain ⟨f, rfl⟩ : ∃ f, fuel = f + 1 := ⟨fuel - 1, by omega⟩
        have hgoal := senderLoop_at_goal c nbytes f ⟨nbytes, nbytes - n, nbytes - n, k + 1⟩
          (le_refl _)
        have hrun : senderLoop c nbytes (f + 1 + 1) ⟨n, pktsize, pktsize, k⟩ =
            some (Effect.write (nbytes - n) (nbytes - n) ::
              (if nbytes % every = 0 then [Effect.report every] else []),
              some ⟨nbytes, nbytes - n, nbytes - n, k + 1⟩) := by
          rw [senderLoop, hit]
          simp only [hgoal, Option.map, List.append_nil]
        refine ⟨_, _, hrun, ?_, ?_, rfl, ?_⟩
        · rw [chunks_small _ (by omega) hs, writes_write_cons, writes_ite_report]
        · rw [reports_write_cons, reports_ite_report]
          rw [pktsize_eq] at hs
          rw [every_eq]
          by_cases h0 : nbytes % 131072 = 0
          · have h1 : nbytes / 131072 - n / 131072 = 1 := by omega
            rw [if_pos h0, h1]; rfl
          · have h1 : nbytes / 131072 - n / 131072 = 0 := by omega
            rw [if_neg h0, h1]; rfl
        · have h1 : (nbytes - n) % pktsize = nbytes - n := Nat.mod_eq_of_lt hs
          have h2 : nbytes - n ≠ 0 := by omega
          unfold lastChunk
          rw [h1, if_neg h2]
      · have hfull : n + pktsize ≤ nbytes := by omega
        have hit := senderIter_full c hc nbytes n k hfull hu
        have hm2 : (n + pktsize) % pktsize = 0 := by rw [pktsize_eq]; omega
        obtain ⟨es, s, hrun, hw, hr, hsn, hsi⟩ :=
          ih (n + pktsize) (k + 1) hfull hm2 (by rw [pktsize_eq] at *; omega)
        have hrun2 : senderLoop c nbytes (fuel + 1) ⟨n, pktsize, pktsize, k⟩ =
            some ((Effect.write pktsize pktsize ::
              (if (n + pktsize) % every = 0 then [Effect.report every] else [])) ++ es,
              some s) := by
          rw [senderLoop, hit]
          simp only [hrun, Option.map]
        refine ⟨_, s, hrun2, ?_, ?_, hsn, ?_⟩
        · have h3 : nbytes - n - pktsize = nbytes - (n + pktsize) := by omega
          rw [chunks_step _ (by omega), h3, ← hw, List.cons_append, writes_write_cons,
            writes_append, writes_ite_report, List.nil_append]
        · rw [List.cons_append, reports_write_cons, reports_append, reports_ite_report, hr]
          rw [pktsize_eq] at hfull ⊢
          rw [every_eq]
          by_cases h0 : (n + 8192) % 131072 = 0
          · have h1 : nbytes / 131072 - n / 131072 =
                (nbytes / 131072 - (n + 8192) / 131072) + 1 := by omega
            rw [if_pos h0, h1, List.replicate_succ]; rfl
          · have h1 : nbytes / 131072 - n / 131072 =
                nbytes / 131072 - (n + 8192) / 131072 := by omega
            rw [if_neg h0, h1]; rfl
        · rw [hsi]
          have h1 : (nbytes - n) % pktsize = (nbytes - (n + pktsize)) % pktsize := by
            rw [pktsize_eq] at hfull ⊢; omega
          unfold lastChunk
          rw [h1]
    · have hnn : n = nbytes := by omega
      subst hnn
      refine ⟨[], _, senderLoop_at_goal c n fuel _ (le_refl _), ?_, ?_, rfl, ?_⟩
      · rw [Nat.sub_self, chunks_zero]; rfl
      · rw [Nat.sub_self]; rfl
      · rw [Nat.sub_self]; unfold lastChunk; rw [Nat.zero_mod, if_pos rfl]

/-- A pass of the sender loop that continues has written the whole buffer, of
at least one byte, without passing the goal. -/
theorem senderIter_next (c : Conn) (nbytes : Nat) (hu : nbytes < U64) (s s1 : SendState)
    (es : List Effect) (hb1 : 1 ≤ s.buf) (hb2 : s.buf ≤ pktsize)
    (h : senderIter c nbytes s = (es, Outcome.next s1)) :
    1 ≤ s1.buf ∧ s1.buf ≤ pktsize ∧ s.n < s1.n ∧ s1.n ≤ nbytes := by
  unfold senderIter at h
  by_cases h1 : s.n < nbytes
  · rw [if_pos h1] at h
    by_cases hsm : nbytes - s.n < pktsize
    · simp only [hsm, if_true] at h
      generalize c.xfer s.k (nbytes - s.n) = r at h
      split at h
      · simp at h
      · split at h
        · simp at h
        · split at h
          · simp at h
          · rename_i _ hnw _
            simp only [Prod.mk.injEq, Outcome.next.injEq] at h
            obtain ⟨_, rfl⟩ := h
            have hr : r.1 = nbytes - s.n := not_not.mp hnw
            have h7 : (s.n + (nbytes - s.n)) % U64 = nbytes := by
              rw [Nat.add_sub_cancel' (le_of_lt h1)]; exact Nat.mod_eq_of_lt hu
            simp only [hr, h7]
            omega
    · simp only [hsm, if_false] at h
      generalize c.xfer s.k s.buf = r at h
      split at h
      · simp at h
      · split at h
        · simp at h
        · split at h
          · simp at h
          · rename_i _ hnw _
            simp only [Prod.mk.injEq, Outcome.next.injEq] at h
            obtain ⟨_, rfl⟩ := h
            have hr : r.1 = s.buf := not_not.mp hnw
            have h7 : (s.n + s.buf) % U64 = s.n + s.buf := Nat.mod_eq_of_lt (by omega)
            simp only [hr, h7]
            omega
  · rw [if_neg h1] at h
    simp at h

/-- The sender loop never runs out of fuel. -/
theorem senderLoop_isSome (c : Conn) (nbytes : Nat) (hu : nbytes < U64) :
    ∀ fuel s, 1 ≤ s.buf → s.buf ≤ pktsize → nbytes - s.n < fuel →
      (senderLoop c nbytes fuel s).isSome = true := by
  intro fuel
  induction fuel with
  | zero => intro s _ _ h; omega
  | succ fuel ih =>
    intro s hb1 hb2 hf
    rw [senderLoop]
    cases hi : senderIter c nbytes s with
    | mk es out =>
      cases out with
      | next s1 =>
        obtain ⟨g1, g2, g3, g4⟩ := senderIter_next c nbytes hu s s1 es hb1 hb2 hi
        have hlt : nbytes - s1.n < fuel := by omega
        have hs := ih s1 g1 g2 hlt
        show (Option.map (fun r => (es ++ r.1, r.2)) (senderLoop c nbytes fuel s1)).isSome = true
        cases hl : senderLoop c nbytes fuel s1 with
        | none => rw [hl] at hs; exact hs
        | some p => rfl
      | leave s1 => rfl
      | ret => rfl

/-- `TCPSender.Work` always returns. -/
theorem senderWork_isSome (c : Conn) (nbytes : Nat) (hu : nbytes < U64) :
    (TCPSender.Work c nbytes).isSome = true := by
  unfold TCPSender.Work
  have h := senderLoop_isSome c nbytes hu (nbytes + 1) ⟨0, pktsize, pktsize, 0⟩
    (by rw [pktsize_eq]; exact Nat.succ_pos _) (le_refl _) (by simp)
  split
  · cases hl : senderLoop c nbytes (nbytes + 1) ⟨0, pktsize, pktsize, 0⟩ with
    | none => rw [hl] at h; simp at h
    | some p =>
      obtain ⟨es, o⟩ := p
      cases o <;> rfl
  · rfl

theorem idealConn_clean : idealConn.Clean :=
  ⟨rfl, fun _ _ => rfl, fun _ => rfl⟩

/-- The whole of `TCPSender.Work` on a clean connection: the loop writes
`chunks nbytes` and sends `nbytes / every` reports of `every`; after it come
the report of `incr`, the connection close and the sink close. -/
theorem senderWork_clean (c : Conn) (hc : c.Clean) (nbytes : Nat) (hu : nbytes < U64) :
    ∃ es, TCPSender.Work c nbytes =
        some (es ++ [Effect.report (lastChunk nbytes), Effect.closeConn, Effect.closeSink]) ∧
      writes es = chunks nbytes ∧
      reports es = List.replicate (nbytes / every) every := by
  obtain ⟨es, s, hrun, hw, hr, _, hsi⟩ :=
    senderLoop_clean c hc nbytes hu (nbytes + 1) 0 0 (Nat.zero_le _) (Nat.zero_mod _)
      (by omega)
  refine ⟨es, ?_, ?_, ?_⟩
  · unfold TCPSender.Work
    rw [if_pos hc.dial, hrun]
    simp only [hsi, Nat.sub_zero]
  · rw [hw, Nat.sub_zero]
  · rw [hr, Nat.zero_div, Nat.sub_zero]

theorem sum_chunks (m : Nat) : (chunks m).sum = m := by
  unfold chunks
  rw [pktsize_eq]
  split <;> simp <;> omega

theorem length_chunks (m : Nat) : (chunks m).length = (m + 8191) / 8192 := by
  unfold chunks
  rw [pktsize_eq]
  split <;> simp <;> omega

theorem sum_take_le_sum (l : List Nat) (j : Nat) : (l.take j).sum ≤ l.sum := by
  have h := List.sum_take_add_sum_drop l j
  omega

theorem reports_read_cons (nr : Nat) (es : List Effect) :
    reports (Effect.read nr :: es) = reports es := rfl

theorem reads_read_cons (nr : Nat) (es : List Effect) :
    reads (Effect.read nr :: es) = nr :: reads es := rfl

theorem reads_report_cons (v : Nat) (es : List Effect) :
    reads (Effect.report v :: es) = reads es := rfl

theorem reports_report_cons (v : Nat) (es : List Effect) :
    reports (Effect.report v :: es) = v :: reports es := rfl

/-- Accounting invariant of the receiver loop when no read fails and every
read returns at most 8192 bytes: what was reported plus the checkpoint at the
exit is the checkpoint at the start plus what was read, the loop does not end
in a `return`, and every report sent inside the loop is at least `every`. -/
theorem receiverLoop_account (c : Conn) (nbytes : Nat)
    (hr : ∀ k, (c.xfer k pktsize).2 = false ∧ (c.xfer k pktsize).1 ≤ 8192) :
    ∀ fuel s es out, s.chkpt < every → receiverLoop c nbytes fuel s = some (es, out) →
      ∃ s', out = some s' ∧
        (reports es).sum + s'.chkpt = s.chkpt + (reads es).sum ∧
        ∀ v ∈ reports es, every ≤ v := by
  intro fuel
  induction fuel with
  | zero => intro s es out _ h; simp [receiverLoop] at h
  | succ fuel ih =>
    intro s es out hs h
    obtain ⟨hok, hb⟩ := hr s.k
    have hmod : (s.chkpt + (c.xfer s.k pktsize).1) % U64 = s.chkpt + (c.xfer s.k pktsize).1 :=
      Nat.mod_eq_of_lt (by rw [U64_eq]; rw [every_eq] at hs; omega)
    rw [receiverLoop] at h
    unfold receiverIter at h
    by_cases h1 : s.n < nbytes
    · simp only [if_pos h1, hok, hmod] at h
      generalize (c.xfer s.k pktsize).1 = nr at h hb hmod
      by_cases h2 : c.stop s.k = true
      · simp only [if_pos h2, Bool.false_eq_true, if_false, Option.some.injEq,
          Prod.mk.injEq] at h
        obtain ⟨rfl, rfl⟩ := h
        refine ⟨_, rfl, ?_, ?_⟩
        · simp [reports, reads]
        · simp [reports]
      · by_cases h3 : every ≤ s.chkpt + nr
        · simp only [if_neg h2, if_pos h3, Bool.false_eq_true, if_false] at h
          cases hl : receiverLoop c nbytes fuel
              ⟨(s.n + nr) % U64, 0, s.k + 1⟩ with
          | none => rw [hl] at h; simp at h
          | some p =>
            obtain ⟨es2, out2⟩ := p
            rw [hl] at h
            simp only [Option.map, Option.some.injEq, Prod.mk.injEq] at h
            obtain ⟨rfl, rfl⟩ := h
            obtain ⟨s', hs', hsum, hall⟩ := ih _ es2 out2 (by rw [every_eq]; exact Nat.succ_pos _) hl
            refine ⟨s', hs', ?_, ?_⟩
            · simp only [List.cons_append, List.nil_append, reports_read_cons,
                reports_report_cons, reads_read_cons, reads_report_cons, List.sum_cons]
              simp only [Nat.zero_add] at hsum
              omega
            · intro v hv
              simp only [List.cons_append, List.nil_append, reports_read_cons,
                reports_report_cons, List.mem_cons] at hv
              rcases hv with rfl | hv
              · exact h3
              · exact hall v hv
        · simp only [if_neg h2, if_neg h3, Bool.false_eq_true, if_false] at h
          cases hl : receiverLoop c nbytes fuel
              ⟨(s.n + nr) % U64, s.chkpt + nr, s.k + 1⟩ with
          | none => rw [hl] at h; simp at h
          | some p =>
            obtain ⟨es2, out2⟩ := p
            rw [hl] at h
            simp only [Option.map, Option.some.injEq, Prod.mk.injEq] at h
            obtain ⟨rfl, rfl⟩ := h
            obtain ⟨s', hs', hsum, hall⟩ := ih _ es2 out2 (by simpa using h3) hl
            refine ⟨s', hs', ?_, ?_⟩
            · simp only [List.cons_append, List.nil_append, reports_read_cons,
                reads_read_cons, List.sum_cons]
              simp only at hsum
              omega
            · intro v hv
              simp only [List.cons_append, List.nil_append, reports_read_cons] at hv
              exact hall v hv
    · simp only [if_neg h1, Option.some.injEq, Prod.mk.injEq] at h
      obtain ⟨rfl, rfl⟩ := h
      refine ⟨_, rfl, ?_, ?_⟩
      · simp [reports, reads]
      · simp [reports]

/-! ## Claims about `TCPSender.Work` -/

/-- C1 (the code departs from the claim): on an error-free, unstopped upload
of 16384 bytes the sender writes two chunks of 8192 bytes and sends the single
report 8192 before closing the sink, so the reports add up to 8192 while 16384
bytes were written. -/
theorem sender_reports_miss_goal :
    TCPSender.Work idealConn 16384 =
        some [Effect.write 8192 8192, Effect.write 8192 8192, Effect.report 8192,
          Effect.closeConn, Effect.closeSink] ∧
      ((TCPSender.Work idealConn 16384).map (fun tr => (reports tr).sum)) = some 8192 ∧
      ((TCPSender.Work idealConn 16384).map (fun tr => (writes tr).sum)) = some 16384 := by
  decide

/-- C2: on a connection where no write fails or is short and no stop signal
arrives, `TCPSender.Work` returns, and its writes are `nbytes / 8192` chunks of
8192 bytes followed by one chunk of `nbytes % 8192` bytes when that is not
zero; so there are exactly `ceil(nbytes / 8192)` writes, no running total of
them exceeds `nbytes`, and together they are `nbytes` bytes. -/
theorem sender_writes_chunks (c : Conn) (hc : c.Clean) (nbytes : Nat) (hu : nbytes < U64) :
    ∃ tr, TCPSender.Work c nbytes = some tr ∧
      writes tr = List.replicate (nbytes / 8192) 8192 ++
        (if nbytes % 8192 = 0 then [] else [nbytes % 8192]) ∧
      (writes tr).length = (nbytes + 8191) / 8192 ∧
      (∀ j, ((writes tr).take j).sum ≤ nbytes) ∧
      (writes tr).sum = nbytes := by
  obtain ⟨es, hrun, hw, _⟩ := senderWork_clean c hc nbytes hu
  have hw2 : writes (es ++ [Effect.report (lastChunk nbytes), Effect.closeConn,
      Effect.closeSink]) = chunks nbytes := by
    rw [writes_append, hw]
    exact List.append_nil _
  refine ⟨_, hrun, ?_, ?_, ?_, ?_⟩
  · rw [hw2, chunks, pktsize_eq]
  · rw [hw2, length_chunks]
  · intro j
    have h := sum_take_le_sum (chunks nbytes) j
    rw [sum_chunks] at h
    rw [hw2]
    exact h
  · rw [hw2, sum_chunks]

/-- C2 at the upload of 5,000,000 bytes: 610 chunks of 8192 bytes and one of
2880 bytes. -/
theorem sender_writes_chunks_witness :
    ∃ tr, TCPSender.Work idealConn 5000000 = some tr ∧
      writes tr = List.replicate 610 8192 ++ [2880] ∧
      (writes tr).length = 611 ∧
      (∀ j, ((writes tr).take j).sum ≤ 5000000) ∧
      (writes tr).sum = 5000000 :=
  sender_writes_chunks idealConn idealConn_clean 5000000 (by rw [U64_eq]; omega)

/-! ## Claims about `TCPReceiver.Work` -/

/-- C3: when the dial succeeds and every read succeeds with at most 8192
bytes, any run of `TCPReceiver.Work` that returns (it then left its loop at the
goal or on the stop signal) has sent reports that add up to the bytes it read;
its trace ends with the final report and the two closes, and every report
before that is at least 131072. In any pass of the loop, a report is at least
131072 and leaves the checkpoint at 0. -/
theorem receiver_reports_account (c : Conn) (nbytes fuel : Nat) (tr : List Effect)
    (hd : c.dialOk = true)
    (hr : ∀ k, (c.xfer k pktsize).2 = false ∧ (c.xfer k pktsize).1 ≤ 8192)
    (h : TCPReceiver.Work c nbytes fuel = some tr) :
    (reports tr).sum = (reads tr).sum ∧
    (∃ es v, tr = es ++ [Effect.report v, Effect.closeConn, Effect.closeSink] ∧
      ∀ x ∈ reports es, 131072 ≤ x) ∧
    (∀ s es out, receiverIter c nbytes s = (es, out) → ∀ x ∈ reports es,
      131072 ≤ x ∧ ∃ s', out = Outcome.next s' ∧ s'.chkpt = 0) := by
  have hrun : ∃ es s', receiverLoop c nbytes fuel ⟨0, 0, 0⟩ = some (es, some s') ∧
      tr = es ++ [Effect.report s'.chkpt, Effect.closeConn, Effect.closeSink] ∧
      (reports es).sum + s'.chkpt = (reads es).sum ∧ ∀ v ∈ reports es, every ≤ v := by
    unfold TCPReceiver.Work at h
    rw [if_pos hd] at h
    cases hl : receiverLoop c nbytes fuel ⟨0, 0, 0⟩ with
    | none => rw [hl] at h; simp at h
    | some p =>
      obtain ⟨es, out⟩ := p
      obtain ⟨s', rfl, hsum, hall⟩ :=
        receiverLoop_account c nbytes hr fuel ⟨0, 0, 0⟩ es out
          (by rw [every_eq]; exact Nat.succ_pos _) hl
      rw [hl] at h
      simp only [Option.some.injEq] at h
      refine ⟨es, s', rfl, h.symm, ?_, hall⟩
      simp only [Nat.zero_add] at hsum
      exact hsum
  obtain ⟨es, s', _, rfl, hsum, hall⟩ := hrun
  refine ⟨?_, ⟨es, s'.chkpt, rfl, ?_⟩, ?_⟩
  · rw [reports_append, reads_append]
    simp only [reports, reads, List.sum_append, List.sum_cons, List.sum_nil]
    omega
  · intro x hx
    have := hall x hx
    rw [every_eq] at this
    exact this
  · intro s es2 out hit x hx
    unfold receiverIter at hit
    by_cases h1 : s.n < nbytes
    · rw [if_pos h1] at hit
      simp only at hit
      by_cases h2 : (c.xfer s.k pktsize).2 = true
      · rw [if_pos h2] at hit
        simp only [Prod.mk.injEq] at hit
        obtain ⟨rfl, _⟩ := hit
        simp [reports] at hx
      · rw [if_neg h2] at hit
        by_cases h3 : c.stop s.k = true
        · rw [if_pos h3] at hit
          simp only [Prod.mk.injEq] at hit
          obtain ⟨rfl, _⟩ := hit
          simp [reports] at hx
        · rw [if_neg h3] at hit
          by_cases h4 : every ≤ (s.chkpt + (c.xfer s.k pktsize).1) % U64
          · rw [if_pos h4] at hit
            simp only [Prod.mk.injEq] at hit
            obtain ⟨rfl, rfl⟩ := hit
            simp only [reports, List.mem_singleton] at hx
            subst hx
            rw [every_eq] at h4
            exact ⟨h4, _, rfl, rfl⟩
          · rw [if_neg h4] at hit
            simp only [Prod.mk.injEq] at hit
            obtain ⟨rfl, _⟩ := hit
            simp [reports] at hx
    · rw [if_neg h1] at hit
      simp only [Prod.mk.injEq] at hit
      obtain ⟨rfl, _⟩ := hit
      simp [reports] at hx

/-- C3 on a run that reads 18 buffers of 8192 bytes towards a goal of 140000
bytes: one report of 131072 inside the loop and a final report of 16384. -/
theorem receiver_reports_account_witness :
    idealConn.dialOk = true ∧
    (∀ k, (idealConn.xfer k pktsize).2 = false ∧ (idealConn.xfer k pktsize).1 ≤ 8192) ∧
    ∃ tr, TCPReceiver.Work idealConn 140000 20 = some tr ∧
      reports tr = [131072, 16384] ∧
      (reports tr).sum = (reads tr).sum ∧
      (∃ es v, tr = es ++ [Effect.report v, Effect.closeConn, Effect.closeSink] ∧
        ∀ x ∈ reports es, 131072 ≤ x) ∧
      (∀ s es out, receiverIter idealConn 140000 s = (es, out) → ∀ x ∈ reports es,
        131072 ≤ x ∧ ∃ s', out = Outcome.next s' ∧ s'.chkpt = 0) := by
  have hr : ∀ k, (idealConn.xfer k pktsize).2 = false ∧ (idealConn.xfer k pktsize).1 ≤ 8192 :=
    fun _ => ⟨rfl, by rw [pktsize_eq]; exact le_refl _⟩
  have hsome : (TCPReceiver.Work idealConn 140000 20).isSome = true := by decide
  obtain ⟨tr, htr⟩ := Option.isSome_iff_exists.mp hsome
  have hrep : (TCPReceiver.Work idealConn 140000 20).map reports = some [131072, 16384] := by
    decide
  refine ⟨rfl, hr, tr, htr, ?_, receiver_reports_account idealConn 140000 20 tr rfl hr htr⟩
  rw [htr] at hrep
  simpa using hrep

/-! ## Facts about the sampling closures -/

theorem appendSample_eq (w : List Nat) (x : Nat) :
    appendSample w x = (w ++ [x]).drop (w.length + 1 - min (w.length + 1) 20) := by
  unfold appendSample
  simp only [List.length_append, List.length_singleton]
  by_cases h : w.length + 1 > 20
  · rw [if_pos h]
    congr 1
    omega
  · rw [if_neg h]
    have h2 : w.length + 1 - min (w.length + 1) 20 = 0 := by omega
    rw [h2, List.drop_zero]

theorem appendSample_length (w : List Nat) (x : Nat) :
    (appendSample w x).length = min (w.length + 1) 20 := by
  rw [appendSample_eq, List.length_drop, List.length_append, List.length_singleton]
  omega

theorem addsamp_samples (st : DispState) (tn : Nat) :
    (addsamp st tn).map DispState.samples =
      (bps st.lcnt st.t1 tn).map (appendSample st.samples) := by
  unfold addsamp
  cases bps st.lcnt st.t1 tn <;> rfl

/-- The window of a state after one pass of the loop is at most 20 long when
it was before. -/
theorem samplingIter_window (name : String) (cfgCount : Nat) (st : DispState) (e : Event)
    (fx : List ClientEffect) (st1 : DispState) (h20 : st.samples.length ≤ 20)
    (h : samplingIter name cfgCount st e = Pass.next fx st1 ∨
      samplingIter name cfgCount st e = Pass.leave fx st1 ∨
      samplingIter name cfgCount st e = Pass.blocked fx st1) :
    st1.samples.length ≤ 20 := by
  have key : ∀ tn st2, addsamp st tn = some st2 → st2.samples.length ≤ 20 := by
    intro tn st2 h2
    have h3 := addsamp_samples st tn
    rw [h2] at h3
    cases hb : bps st.lcnt st.t1 tn with
    | none => rw [hb] at h3; simp at h3
    | some x =>
      rw [hb] at h3
      simp only [Option.map, Option.some.injEq] at h3
      rw [h3, appendSample_length]
      omega
  cases e with
  | tick tn room =>
    cases ha : addsamp st tn with
    | none => simp [samplingIter, ha] at h
    | some st2 =>
      cases hv : avg st2.samples with
      | none => simp [samplingIter, ha, hv] at h
      | some br =>
        have h2 := key tn st2 ha
        simp only [samplingIter, ha, hv] at h
        split at h
        · split at h <;> simp at h <;> (obtain ⟨_, rfl⟩ := h; exact h2)
        · simp at h
          obtain ⟨_, rfl⟩ := h
          exact h2
  | count c =>
    simp [samplingIter] at h
    obtain ⟨_, rfl⟩ := h
    exact h20
  | closed tn =>
    cases ha : addsamp st tn with
    | none => simp [samplingIter, ha] at h
    | some st2 =>
      cases hv : avg st2.samples with
      | none => simp [samplingIter, ha, hv] at h
      | some br =>
        simp [samplingIter, ha, hv] at h
        obtain ⟨_, rfl⟩ := h
        exact key tn st2 ha

theorem Run.window_after (fx : List ClientEffect) (r : Run) : (r.after fx).window = r.window := by
  cases r <;> rfl

theorem samplingLoop_window (name : String) (cfgCount : Nat) :
    ∀ (evs : List Event) (st : DispState), st.samples.length ≤ 20 →
      (samplingLoop name cfgCount evs st).window.length ≤ 20 := by
  intro evs
  induction evs with
  | nil => intro st h; exact h
  | cons e es ih =>
    intro st h
    unfold samplingLoop
    cases hi : samplingIter name cfgCount st e with
    | panicked => simp [Run.window]
    | next fx st1 =>
      simp only
      rw [Run.window_after]
      exact ih st1 (samplingIter_window name cfgCount st e fx st1 h (Or.inl hi))
    | leave fx st1 =>
      simp only [Run.window]
      exact samplingIter_window name cfgCount st e fx st1 h (Or.inr (Or.inl hi))
    | blocked fx st1 =>
      simp only [Run.window]
      exact samplingIter_window name cfgCount st e fx st1 h (Or.inr (Or.inr hi))

theorem nanosBetween_of_lt (t0 t1 : Nat) (h : t0 ≤ t1) (hb : t1 < 2 ^ 63) :
    nanosBetween t0 t1 = t1 - t0 := by
  unfold nanosBetween
  rw [U64_eq]
  push_cast
  omega

theorem bps_of_lt (n t0 t1 : Nat) (h : t0 < t1) (hb : t1 < 2 ^ 63) :
    bps n t0 t1 = some ((n * 8000000000) % U64 / (t1 - t0)) := by
  unfold bps
  rw [nanosBetween_of_lt t0 t1 (le_of_lt h) hb, if_neg (by omega)]

theorem avg_appendSample (w : List Nat) (x : Nat) : ∃ b, avg (appendSample w x) = some b := by
  unfold avg
  have h := appendSample_length w x
  have h2 : (appendSample w x).length % U64 ≠ 0 := by
    rw [h, U64_eq]; omega
  rw [if_neg h2]
  exact ⟨_, rfl⟩

theorem addsamp_of_lt (st : DispState) (tn : Nat) (h : st.t1 < tn) (hb : tn < 2 ^ 63) :
    ∃ x, addsamp st tn = some { st with lcnt := 0, t1 := tn, samples := appendSample st.samples x } := by
  unfold addsamp
  rw [bps_of_lt _ _ _ h hb]
  exact ⟨_, rfl⟩

theorem samplingIter_tick_below_goal (name : String) (cfgCount : Nat) (st : DispState)
    (tn : Nat) (room : Bool) (hg : st.tcnt < cfgCount) (h : st.t1 < tn) (hb : tn < 2 ^ 63) :
    ∃ st2 br, samplingIter name cfgCount st (Event.tick tn room) =
        Pass.next [ClientEffect.trySend ⟨"Running", name, br⟩ room] st2 ∧
      st2.tcnt = st.tcnt ∧ st2.t1 = tn := by
  obtain ⟨x, hx⟩ := addsamp_of_lt st tn h hb
  obtain ⟨b, hv⟩ := avg_appendSample st.samples x
  have hg2 : ¬ cfgCount ≤ st.tcnt := by omega
  refine ⟨⟨st.tcnt, 0, tn, appendSample st.samples x, b⟩, b, ?_, rfl, rfl⟩
  simp only [samplingIter, hx, hv, if_neg hg2]

theorem samplingIter_closed (name : String) (cfgCount : Nat) (st : DispState)
    (tn : Nat) (h : st.t1 < tn) (hb : tn < 2 ^ 63) :
    ∃ st2, samplingIter name cfgCount st (Event.closed tn) = Pass.leave [] st2 ∧
      st2.tcnt = st.tcnt := by
  obtain ⟨x, hx⟩ := addsamp_of_lt st tn h hb
  obtain ⟨b, hv⟩ := avg_appendSample st.samples x
  refine ⟨⟨st.tcnt, 0, tn, appendSample st.samples x, b⟩, ?_, rfl⟩
  simp only [samplingIter, hx, hv]

theorem samplingLoop_cons_next (name : String) (cfgCount : Nat) (st st1 : DispState)
    (e : Event) (es : List Event) (fx : List ClientEffect)
    (h : samplingIter name cfgCount st e = Pass.next fx st1) :
    samplingLoop name cfgCount (e :: es) st = (samplingLoop name cfgCount es st1).after fx := by
  rw [samplingLoop, h]

theorem samplingLoop_cons_leave (name : String) (cfgCount : Nat) (st st1 : DispState)
    (e : Event) (es : List Event) (fx : List ClientEffect)
    (h : samplingIter name cfgCount st e = Pass.leave fx st1) :
    samplingLoop name cfgCount (e :: es) st = Run.left fx st1 es := by
  rw [samplingLoop, h]

/-- When the product `n * 8e9` fits in a `uint64`, `bps` is the exact rate. -/
theorem bps_exact (n t0 t1 : Nat) (h : t0 < t1) (hb : t1 < 2 ^ 63)
    (hn : n * 8000000000 < U64) :
    bps n t0 t1 = some (n * 8 * 10 ^ 9 / (t1 - t0)) := by
  rw [bps_of_lt n t0 t1 h hb, Nat.mod_eq_of_lt hn]
  have h2 : n * 8 * 10 ^ 9 = n * 8000000000 := by ring
  rw [h2]

/-- Ticks below the goal followed by the closed sink: the ticks alone leave
the loop waiting, and the loop is left at the closed sink. -/
theorem samplingLoop_ticks_closed (name : String) (cfgCount tc : Nat) (rest : List Event) :
    ∀ (ticks : List (Nat × Bool)) (st : DispState), st.tcnt < cfgCount →
      increasingFrom st.t1 (ticks.map Prod.fst ++ [tc]) = true →
      (∃ fx st1, samplingLoop name cfgCount (ticks.map (fun p => Event.tick p.1 p.2)) st =
          Run.waiting fx st1) ∧
      ∃ fx st1, samplingLoop name cfgCount
          (ticks.map (fun p => Event.tick p.1 p.2) ++ Event.closed tc :: rest) st =
          Run.left fx st1 rest ∧
        st1.tcnt = st.tcnt ∧ fx.length = ticks.length ∧ ∀ x ∈ fx, isRunningTry name x := by
  intro ticks
  induction ticks with
  | nil =>
    intro st _ hinc
    simp only [List.map_nil, List.nil_append, increasingFrom, Bool.and_true, Bool.and_eq_true,
      decide_eq_true_eq] at hinc
    obtain ⟨st2, h2, ht⟩ := samplingIter_closed name cfgCount st tc hinc.1 hinc.2
    refine ⟨⟨[], st, rfl⟩, [], st2, ?_, ht, rfl, ?_⟩
    · exact samplingLoop_cons_leave name cfgCount st st2 _ rest [] h2
    · intro x hx; cases hx
  | cons p ps ih =>
    intro st hg hinc
    simp only [List.map_cons, List.cons_append, increasingFrom, Bool.and_eq_true,
      decide_eq_true_eq] at hinc
    obtain ⟨⟨h1, h2⟩, h3⟩ := hinc
    obtain ⟨st2, br, hit, htc, ht1⟩ :=
      samplingIter_tick_below_goal name cfgCount st p.1 p.2 hg h1 h2
    obtain ⟨⟨fxa, sta, ha⟩, fxb, stb, hb, hbt, hbl, hball⟩ :=
      ih st2 (by rw [htc]; exact hg) (by rw [ht1]; exact h3)
    refine ⟨⟨[ClientEffect.trySend ⟨"Running", name, br⟩ p.2] ++ fxa, sta, ?_⟩,
      [ClientEffect.trySend ⟨"Running", name, br⟩ p.2] ++ fxb, stb, ?_, ?_, ?_, ?_⟩
    · rw [List.map_cons, samplingLoop_cons_next name cfgCount st st2 _ _ _ hit, ha]
      rfl
    · rw [List.map_cons, List.cons_append,
        samplingLoop_cons_next name cfgCount st st2 _ _ _ hit, hb]
      rfl
    · rw [hbt, htc]
    · simp [hbl]
    · intro x hx
      simp only [List.singleton_append, List.mem_cons] at hx
      rcases hx with rfl | hx
      · exact ⟨br, p.2, rfl⟩
      · exact hball x hx

/-! ## Claims about the sampling loop of `Dispatch` -/

/-- C4 (the code departs from the claim): `samples` starts as a slice holding
one zero, so at the first tick, after the single sample x1 = 2097152 bit/s
(one report of 131072 bytes in 0.5 s), the window is `[0, 2097152]` and the
average that is published is 1048576, not the mean 2097152 of the samples
taken. -/
theorem first_tick_average_counts_initial_zero :
    bps 131072 0 500000000 = some 2097152 ∧
    samplingLoop "DOWN" 5000000 [Event.count 131072, Event.tick 500000000 true]
        (DispState.init 0) =
      Run.waiting [ClientEffect.trySend ⟨"Running", "DOWN", 1048576⟩ true]
        ⟨131072, 0, 500000000, [0, 2097152], 1048576⟩ := by
  decide

/-- C5: `addsamp` leaves the window equal to the last `min (len w + 1) 20`
elements of `w` followed by the new sample (order kept, oldest dropped), of
that length; and in every run of the sampling loop of `Dispatch` the window
holds at most 20 entries. -/
theorem window_keeps_last_20 (w : List Nat) (x : Nat) (st : DispState) (tn : Nat)
    (name : String) (cfgCount t0 : Nat) (evs : List Event) :
    appendSample w x = (w ++ [x]).drop ((w ++ [x]).length - min (w.length + 1) 20) ∧
    (appendSample w x).length = min (w.length + 1) 20 ∧
    (addsamp st tn).map DispState.samples =
      (bps st.lcnt st.t1 tn).map (appendSample st.samples) ∧
    (samplingLoop name cfgCount evs (DispState.init t0)).window.length ≤ 20 := by
  refine ⟨?_, appendSample_length w x, addsamp_samples st tn, ?_⟩
  · rw [appendSample_eq, List.length_append, List.length_singleton]
  · exact samplingLoop_window name cfgCount evs (DispState.init t0) (by simp [DispState.init])

/-- C6 (the code departs from the claim): for n = 3 * 1024^3 bytes in one
second the `uint64` product `n * 8e9` wraps, and `bps` returns 7323059702
instead of floor(n * 8 * 10^9 / d) = 25769803776. -/
theorem bps_wraps_at_3GiB :
    bps (3 * 1024 ^ 3) 0 1000000000 = some 7323059702 ∧
    (3 * 1024 ^ 3) * 8 * 10 ^ 9 / 1000000000 = 25769803776 := by
  decide

/-- With a byte goal of at least 1, on events that are ticks (at increasing
clock readings) and hold no byte count, the loop is still waiting after the
ticks, each of which only attempted one `Running` publication; it is left at
the closed sink, and `Dispatch` then sends one further `Running` event, with
the last window average; it returns if the remote call completes and waits
for ever in `<-aRcv.Done` if not. -/
theorem no_count_run_leaves_at_closed_sink (name : String) (cfgCount t0 tc tEnd : Nat)
    (ticks : List (Nat × Bool)) (rest : List Event) (remoteDone stopErr : Bool)
    (hg : 1 ≤ cfgCount) (hinc : increasingFrom t0 (ticks.map Prod.fst ++ [tc]) = true)
    (h0 : t0 < tEnd) (hEnd : tEnd < 2 ^ 63) :
    (∃ fx st, samplingLoop name cfgCount (ticks.map (fun p => Event.tick p.1 p.2))
        (DispState.init t0) = Run.waiting fx st) ∧
    ∃ fx st, samplingLoop name cfgCount
        (ticks.map (fun p => Event.tick p.1 p.2) ++ Event.closed tc :: rest)
        (DispState.init t0) = Run.left fx st rest ∧
      fx.length = ticks.length ∧ (∀ x ∈ fx, isRunningTry name x) ∧
      Dispatch name cfgCount t0
          (ticks.map (fun p => Event.tick p.1 p.2) ++ Event.closed tc :: rest)
          remoteDone tEnd stopErr =
        (if remoteDone then
          DispatchEnd.returned (fx ++ [ClientEffect.send ⟨"Running", name, st.br⟩]) 0 stopErr
        else DispatchEnd.blocked (fx ++ [ClientEffect.send ⟨"Running", name, st.br⟩])) := by
  obtain ⟨hw, fx, st, hrun, htc, hlen, hall⟩ :=
    samplingLoop_ticks_closed name cfgCount tc rest ticks (DispState.init t0) hg hinc
  refine ⟨hw, fx, st, hrun, hlen, hall, ?_⟩
  have htc0 : st.tcnt = 0 := htc
  unfold Dispatch
  rw [hrun]
  simp only
  rw [bps_of_lt st.tcnt t0 tEnd h0 hEnd, htc0]
  simp

/-- C7 (the code departs from the claim): with a byte goal of 0 and no
byte-count event, the first tick finds `tcnt >= cfg.Count` and sends on `Done`.
The worker, whose loop does not run for a goal of 0, never receives from that
channel, so the send blocks for ever: the loop is not left, the closed sink
that follows is never observed, no `Running` event is published after the loop
and `Dispatch` does not return. -/
theorem goal_zero_blocks_at_first_tick :
    samplingLoop "DOWN" 0 [Event.tick 500000000 false, Event.closed 600000000]
        (DispState.init 0) =
      Run.blocked [] ⟨0, 0, 500000000, [0, 0], 0⟩ ∧
    Dispatch "DOWN" 0 0 [Event.tick 500000000 false, Event.closed 600000000] true 700000000
        false =
      DispatchEnd.blocked [] := by
  decide

/-! ## Claims about the stop signal -/

/-- A call other than `TCPStart` on a session without listener leaves it
without listener, and a transfer fails there without an accept. -/
theorem serve_LData_none (s : Server) (c : Call) (h : s.LData = none) (hc : c.isStart = false) :
    (serve s c).1.LData = none ∧
      (c.isTransfer = true →
        (serve s c).2 = (Reply.returned 0 (some "No Payload TCP Listener"), [])) := by
  cases c with
  | start env => simp [Call.isStart] at hc
  | stop => simp [serve, TCPStop, Call.isTransfer]
  | rcv n a copyN => simp [serve, TCPRcv, transfer, timedaccept, h]
  | snd n a copyN => simp [serve, TCPSnd, transfer, timedaccept, h]

theorem serveAll_LData_none (calls : List Call) :
    ∀ s : Server, s.LData = none → (∀ c ∈ calls, c.isStart = false) →
      ∀ p ∈ List.zip calls (serveAll s calls).2, p.1.isTransfer = true →
        p.2 = (Reply.returned 0 (some "No Payload TCP Listener"), []) := by
  induction calls with
  | nil => intro s _ _ p hp; simp [serveAll] at hp
  | cons c cs ih =>
    intro s hs hall p hp
    have hc := serve_LData_none s c hs (hall c (List.mem_cons_self c cs))
    simp only [serveAll, List.zip_cons_cons, List.mem_cons] at hp
    rcases hp with rfl | hp
    · exact hc.2
    · exact ih (serve s c).1 hc.1 (fun d hd => hall d (List.mem_cons_of_mem c hd)) p hp

/-- C9: in every state of the session (so in every session in which
`TCPStart` succeeded) `TCPStop` returns a nil error with `*r = true` and leaves
`LData` nil; and in any sequence of calls after it that holds no `TCPStart`,
every `TCPRcv` and `TCPSnd` returns the error "No Payload TCP Listener" with
`*r = 0` and makes no accept. -/
theorem stop_then_transfers_fail (s : Server) (calls : List Call)
    (h : ∀ c ∈ calls, c.isStart = false) :
    (TCPStop s).2 = (true, none) ∧
    (TCPStop s).1.LData = none ∧
    ∀ p ∈ List.zip calls (serveAll (TCPStop s).1 calls).2, p.1.isTransfer = true →
      p.2 = (Reply.returned 0 (some "No Payload TCP Listener"), []) :=
  ⟨rfl, rfl, serveAll_LData_none calls (TCPStop s).1 rfl h⟩

/-- C9 on a fresh session: `TCPStart` succeeds, `TCPStop` follows, then a
`TCPRcv` and a `TCPSnd` on which a client would connect and the copy would
succeed. -/
theorem stop_then_transfers_fail_witness :
    (TCPStart Server.new goodStart).2 = (some 40001, none) ∧
    (∀ c ∈ [Call.rcv 5000000 Accept.conn (fun n => (n, false)),
        Call.snd 5000000 Accept.conn (fun n => (n, false))], c.isStart = false) ∧
    (TCPStop (TCPStart Server.new goodStart).1).2 = (true, none) ∧
    (TCPStop (TCPStart Server.new goodStart).1).1.LData = none ∧
    ∀ p ∈ List.zip [Call.rcv 5000000 Accept.conn (fun n => (n, false)),
          Call.snd 5000000 Accept.conn (fun n => (n, false))]
        (serveAll (TCPStop (TCPStart Server.new goodStart).1).1
          [Call.rcv 5000000 Accept.conn (fun n => (n, false)),
            Call.snd 5000000 Accept.conn (fun n => (n, false))]).2,
      p.1.isTransfer = true →
        p.2 = (Reply.returned 0 (some "No Payload TCP Listener"), []) :=
  have hc : ∀ c ∈ [Call.rcv 5000000 Accept.conn (fun n => (n, false)),
      Call.snd 5000000 Accept.conn (fun n => (n, false))], c.isStart = false := by
    intro c hc
    simp only [List.mem_cons, List.mem_singleton, List.not_mem_nil, or_false] at hc
    rcases hc with rfl | rfl <;> rfl
  ⟨rfl, hc, stop_then_transfers_fail (TCPStart Server.new goodStart).1 _ hc⟩

/-! ## Claims about `TCPClient` -/

/-- C10: for every command name, the pass of the loop of `TCPClient` that
receives it continues the loop; the name resolves to a worker, and `Dispatch`
is called, exactly when it is "UP" (the sender, remote operation
`TCPPerf.TCPRcv`) or "DOWN" (the receiver, remote operation `TCPPerf.TCPSnd`);
"STOP" causes nothing; every other name causes only one attempt to publish the
event with status "Error", type "Illegal command:" followed by the name, and
rate 0. -/
theorem command_dispatch_table (name : String) (cfg : SrvConfig) (room : Bool) :
    (clientIter (ClientEvent.command ⟨name, cfg⟩ room)).2 = Outcome.next () ∧
    ((ops name).isSome = true ↔ (name = "UP" ∨ name = "DOWN")) ∧
    ((∃ c w, ClientAction.dispatch c w ∈ (clientIter (ClientEvent.command ⟨name, cfg⟩ room)).1) ↔
      (name = "UP" ∨ name = "DOWN")) ∧
    (ops name).map (fun w => (w.GetName, w.GetRPC)) =
      (if name = "UP" then some ("UP", "TCPPerf.TCPRcv")
      else if name = "DOWN" then some ("DOWN", "TCPPerf.TCPSnd")
      else none) ∧
    (clientIter (ClientEvent.command ⟨name, cfg⟩ room)).1 =
      if name = "UP" then [ClientAction.dispatch cfg (TCPWorker.sender "TCPPerf.TCPRcv")]
      else if name = "DOWN" then [ClientAction.dispatch cfg (TCPWorker.receiver "TCPPerf.TCPSnd")]
      else if name = "STOP" then []
      else [ClientAction.effect
        (ClientEffect.trySend ⟨"Error", "Illegal command:" ++ name, 0⟩ room)] := by
  by_cases h1 : name = "UP"
  · subst h1
    simp [clientIter, ops, TCPWorker.GetName, TCPWorker.GetRPC]
  · by_cases h2 : name = "DOWN"
    · subst h2
      simp [clientIter, ops, TCPWorker.GetName, TCPWorker.GetRPC]
    · by_cases h3 : name = "STOP"
      · subst h3
        simp [clientIter, ops]
      · simp [clientIter, ops, h1, h2, h3]

/-- C10 at the name "RTT": no dispatch, one attempt to publish the error
event, and the loop goes on. -/
theorem command_dispatch_table_witness :
    clientIter (ClientEvent.command ⟨"RTT", ⟨"127.0.0.1", "8001", 5000000, false⟩⟩ true) =
      ([ClientAction.effect (ClientEffect.trySend ⟨"Error", "Illegal command:RTT", 0⟩ true)],
        Outcome.next ()) := by
  have h := command_dispatch_table "RTT" ⟨"127.0.0.1", "8001", 5000000, false⟩ true
  refine Prod.ext ?_ h.1
  rw [h.2.2.2.2]
  decide

/-! ## Further facts and claims about the workers and the payload server -/

theorem chunkTrace_nil (acc : Nat) : chunkTrace acc [] = [] := rfl

theorem chunkTrace_cons (acc ch : Nat) (cs : List Nat) :
    chunkTrace acc (ch :: cs) =
      (Effect.write ch ch :: (if (acc + ch) % every = 0 then [Effect.report every] else [])) ++
        chunkTrace (acc + ch) cs := rfl

/-- The trace of the sender loop on a clean connection. -/
theorem senderLoop_clean_trace (c : Conn) (hc : c.Clean) (nbytes : Nat) (hu : nbytes < U64) :
    ∀ fuel n k, n ≤ nbytes → n % pktsize = 0 → nbytes - n < fuel →
      ∃ s, senderLoop c nbytes fuel ⟨n, pktsize, pktsize, k⟩ =
        some (chunkTrace n (chunks (nbytes - n)), some s) := by
  intro fuel
  induction fuel with
  | zero => intro n k _ _ h; omega
  | succ fuel ih =>
    intro n k hn hm hf
    rcases Nat.lt_or_ge n nbytes with hlt | hge
    · by_cases hs : nbytes - n < pktsize
      · have hit := senderIter_last c hc nbytes n k hlt hs hu
        obtain ⟨f, rfl⟩ : ∃ f, fuel = f + 1 := ⟨fuel - 1, by omega⟩
        have hgoal := senderLoop_at_goal c nbytes f ⟨nbytes, nbytes - n, nbytes - n, k + 1⟩
          (le_refl _)
        refine ⟨⟨nbytes, nbytes - n, nbytes - n, k + 1⟩, ?_⟩
        rw [senderLoop, hit]
        simp only [hgoal, Option.map, List.append_nil]
        rw [chunks_small (nbytes - n) (by omega) hs, chunkTrace_cons, chunkTrace_nil,
          List.append_nil, Nat.add_sub_cancel' (le_of_lt hlt)]
      · have hfull : n + pktsize ≤ nbytes := by omega
        have hp : 0 < pktsize := by rw [pktsize_eq]; exact Nat.succ_pos _
        have hit := senderIter_full c hc nbytes n k hfull hu
        have hm2 : (n + pktsize) % pktsize = 0 := by
          rw [pktsize_eq] at hm ⊢; omega
        obtain ⟨s, hrun⟩ :=
          ih (n + pktsize) (k + 1) hfull hm2 (by omega)
        refine ⟨s, ?_⟩
        have h3 : nbytes - n - pktsize = nbytes - (n + pktsize) := by omega
        rw [senderLoop, hit]
        simp only [hrun, Option.map]
        rw [chunks_step (nbytes - n) (by omega), h3, chunkTrace_cons]
    · have hnn : n = nbytes := by omega
      subst hnn
      refine ⟨⟨n, pktsize, pktsize, k⟩, ?_⟩
      rw [senderLoop_at_goal c n fuel _ (le_refl _), Nat.sub_self, chunks_zero, chunkTrace_nil]
theorem getLast_chunks (g : Nat) :
    (chunks g).getLast? = if g = 0 then none else some (lastChunk g) := by
  unfold chunks lastChunk
  rw [pktsize_eq]
  by_cases h0 : g % 8192 = 0
  · rw [if_pos h0, if_pos h0, List.append_nil]
    by_cases hg : g = 0
    · subst hg; simp
    · rw [if_neg hg]
      obtain ⟨q, hq⟩ : ∃ q, g / 8192 = q + 1 := ⟨g / 8192 - 1, by omega⟩
      rw [hq, List.replicate_succ']
      simp
  · have hg : g ≠ 0 := by intro h; subst h; simp at h0
    rw [if_neg h0, if_neg h0, if_neg hg]
    simp

/-- C14: on a connection with no failed or short write and no stop signal,
`TCPSender.Work` returns the trace in which every chunk of `chunks g` is
written whole and a report of 131072 follows each write that brings the bytes
written to a multiple of 131072, then the final report, then the closes. Its
reports are `g / 131072` times 131072 followed by one final report, equal to
the size of the last chunk written: `g % 8192` when that is not zero and 8192
otherwise (also for `g = 0`, where nothing was written). So the reported total
is `131072 * (g / 131072)` plus that last chunk, and it equals `g` exactly when
`1 ≤ g % 131072 ≤ 8192`. -/
theorem sender_report_sequence (c : Conn) (hc : c.Clean) (g : Nat) (hu : g < U64) :
    ∃ tr, TCPSender.Work c g = some tr ∧
      tr = chunkTrace 0 (chunks g) ++
        [Effect.report (lastChunk g), Effect.closeConn, Effect.closeSink] ∧
      reports tr = List.replicate (g / 131072) 131072 ++
        [if g % 8192 = 0 then 8192 else g % 8192] ∧
      (writes tr).getLast? = (if g = 0 then none
        else some (if g % 8192 = 0 then 8192 else g % 8192)) ∧
      (reports tr).sum = 131072 * (g / 131072) + (if g % 8192 = 0 then 8192 else g % 8192) ∧
      ((reports tr).sum = g ↔ 1 ≤ g % 131072 ∧ g % 131072 ≤ 8192) := by
  obtain ⟨es, s, hrun, hw, hr, _, hsi⟩ :=
    senderLoop_clean c hc g hu (g + 1) 0 0 (Nat.zero_le _) (Nat.zero_mod _) (by omega)
  obtain ⟨s2, hrun2⟩ :=
    senderLoop_clean_trace c hc g hu (g + 1) 0 0 (Nat.zero_le _) (Nat.zero_mod _) (by omega)
  rw [hrun] at hrun2
  simp only [Option.some.injEq, Prod.mk.injEq, Nat.sub_zero] at hrun2
  obtain ⟨hes, _⟩ := hrun2
  rw [Nat.sub_zero] at hw hsi
  rw [Nat.zero_div, Nat.sub_zero] at hr
  have hlast : lastChunk g = if g % 8192 = 0 then 8192 else g % 8192 := by
    unfold lastChunk; rw [pktsize_eq]
  have hwork : TCPSender.Work c g =
      some (es ++ [Effect.report (lastChunk g), Effect.closeConn, Effect.closeSink]) := by
    unfold TCPSender.Work
    rw [if_pos hc.dial, hrun]
    simp only [hsi]
  have hrep : reports (es ++ [Effect.report (lastChunk g), Effect.closeConn, Effect.closeSink]) =
      List.replicate (g / 131072) 131072 ++ [if g % 8192 = 0 then 8192 else g % 8192] := by
    rw [reports_append, hr, every_eq, ← hlast]
    rfl
  have hsum : (List.replicate (g / 131072) 131072 ++
      [if g % 8192 = 0 then 8192 else g % 8192]).sum =
      131072 * (g / 131072) + (if g % 8192 = 0 then 8192 else g % 8192) := by
    simp [List.sum_replicate, Nat.mul_comm]
  refine ⟨_, hwork, ?_, hrep, ?_, ?_, ?_⟩
  · rw [hes]
  · rw [writes_append, hw]
    have : writes [Effect.report (lastChunk g), Effect.closeConn, Effect.closeSink] = [] := rfl
    rw [this, List.append_nil, getLast_chunks, hlast]
  · rw [hrep, hsum]
  · rw [hrep, hsum]
    split <;> omega
@[simp] theorem sinkEffects_append (a b : List Effect) :
    sinkEffects (a ++ b) = sinkEffects a ++ sinkEffects b := by
  induction a with
  | nil => rfl
  | cons e a ih => cases e <;> simp [sinkEffects, ih]

theorem OnlyReports.append {a b : List Effect} (ha : OnlyReports a) (hb : OnlyReports b) :
    OnlyReports (a ++ b) := by
  unfold OnlyReports at *
  rw [sinkEffects_append, reports_append, List.map_append, ha, hb]

theorem senderIter_onlyReports (c : Conn) (nbytes : Nat) (s : SendState) :
    OnlyReports (senderIter c nbytes s).1 := by
  unfold senderIter OnlyReports
  simp only
  split_ifs <;> rfl

theorem receiverIter_onlyReports (c : Conn) (nbytes : Nat) (s : RecvState) :
    OnlyReports (receiverIter c nbytes s).1 := by
  unfold receiverIter OnlyReports
  simp only
  split_ifs <;> rfl

theorem senderLoop_onlyReports (c : Conn) (nbytes : Nat) :
    ∀ fuel s es out, senderLoop c nbytes fuel s = some (es, out) → OnlyReports es := by
  intro fuel
  induction fuel with
  | zero => intro s es out h; simp [senderLoop] at h
  | succ fuel ih =>
    intro s es out h
    rw [senderLoop] at h
    have hi := senderIter_onlyReports c nbytes s
    cases hit : senderIter c nbytes s with
    | mk fx o =>
      rw [hit] at h hi
      simp only at h hi
      cases o with
      | next s1 =>
        simp only at h
        cases hl : senderLoop c nbytes fuel s1 with
        | none => rw [hl] at h; simp at h
        | some p =>
          obtain ⟨es2, out2⟩ := p
          rw [hl] at h
          simp only [Option.map, Option.some.injEq, Prod.mk.injEq] at h
          obtain ⟨rfl, _⟩ := h
          exact hi.append (ih s1 es2 out2 hl)
      | leave s1 =>
        simp only [Option.some.injEq, Prod.mk.injEq] at h
        obtain ⟨rfl, _⟩ := h
        exact hi
      | ret =>
        simp only [Option.some.injEq, Prod.mk.injEq] at h
        obtain ⟨rfl, _⟩ := h
        exact hi

theorem receiverLoop_onlyReports (c : Conn) (nbytes : Nat) :
    ∀ fuel s es out, receiverLoop c nbytes fuel s = some (es, out) → OnlyReports es := by
  intro fuel
  induction fuel with
  | zero => intro s es out h; simp [receiverLoop] at h
  | succ fuel ih =>
    intro s es out h
    rw [receiverLoop] at h
    have hi := receiverIter_onlyReports c nbytes s
    cases hit : receiverIter c nbytes s with
    | mk fx o =>
      rw [hit] at h hi
      simp only at h hi
      cases o with
      | next s1 =>
        simp only at h
        cases hl : receiverLoop c nbytes fuel s1 with
        | none => rw [hl] at h; simp at h
        | some p =>
          obtain ⟨es2, out2⟩ := p
          rw [hl] at h
          simp only [Option.map, Option.some.injEq, Prod.mk.injEq] at h
          obtain ⟨rfl, _⟩ := h
          exact hi.append (ih s1 es2 out2 hl)
      | leave s1 =>
        simp only [Option.some.injEq, Prod.mk.injEq] at h
        obtain ⟨rfl, _⟩ := h
        exact hi
      | ret =>
        simp only [Option.some.injEq, Prod.mk.injEq] at h
        obtain ⟨rfl, _⟩ := h
        exact hi

/-- The shape of the sink effects of a trace that ends with the closes. -/
theorem sink_shape_of_loop (es : List Effect) (h : OnlyReports es) :
    (∀ v, sinkEffects (es ++ [Effect.report v, Effect.closeConn, Effect.closeSink]) =
      (reports (es ++ [Effect.report v, Effect.closeConn, Effect.closeSink])).map Effect.report ++
        [Effect.closeSink]) ∧
    sinkEffects (es ++ [Effect.closeConn, Effect.closeSink]) =
      (reports (es ++ [Effect.closeConn, Effect.closeSink])).map Effect.report ++
        [Effect.closeSink] := by
  unfold OnlyReports at h
  constructor
  · intro v
    rw [sinkEffects_append, reports_append, List.map_append, h]
    simp [sinkEffects, reports]
  · rw [sinkEffects_append, reports_append, List.map_append, h]
    simp [sinkEffects, reports]
theorem isSome_map_of_isSome {α β : Type} (f : α → β) (o : Option α)
    (h : o.isSome = true) : (o.map f).isSome = true := by
  cases o with
  | none => exact h
  | some a => rfl

/-- When every read either fails or returns at least one byte (and at most
8192), and the goal leaves room for a last buffer below `U64`, the receiver
loop ends within `nbytes - n` passes. -/
theorem receiverLoop_isSome (c : Conn) (nbytes : Nat)
    (hr : ∀ k, (c.xfer k pktsize).2 = true ∨
      (1 ≤ (c.xfer k pktsize).1 ∧ (c.xfer k pktsize).1 ≤ 8192))
    (hu : nbytes + 8192 ≤ U64) :
    ∀ fuel s, nbytes - s.n < fuel → (receiverLoop c nbytes fuel s).isSome = true := by
  intro fuel
  induction fuel with
  | zero => intro s h; omega
  | succ fuel ih =>
    intro s hf
    rw [receiverLoop]
    unfold receiverIter
    by_cases h1 : s.n < nbytes
    · rw [if_pos h1]
      simp only
      by_cases herr : (c.xfer s.k pktsize).2 = true
      · rw [if_pos herr]
        rfl
      · rw [if_neg herr]
        obtain ⟨hr1, hr2⟩ := (hr s.k).resolve_left herr
        have hmod : (s.n + (c.xfer s.k pktsize).1) % U64 = s.n + (c.xfer s.k pktsize).1 :=
          Nat.mod_eq_of_lt (by omega)
        have hrec : ∀ ck, (receiverLoop c nbytes fuel
            ⟨(s.n + (c.xfer s.k pktsize).1) % U64, ck, s.k + 1⟩).isSome = true := by
          intro ck
          apply ih
          show nbytes - (s.n + (c.xfer s.k pktsize).1) % U64 < fuel
          rw [hmod]
          omega
        split_ifs
        · rfl
        · exact isSome_map_of_isSome _ _ (hrec _)
        · exact isSome_map_of_isSome _ _ (hrec _)
    · rw [if_neg h1]
      rfl

/-- Any run of `TCPReceiver.Work` that returns has sent its reports and then
closed the sink once, last. -/
theorem receiverWork_sink_shape (c : Conn) (nbytes fuel : Nat) (tr : List Effect)
    (h : TCPReceiver.Work c nbytes fuel = some tr) :
    sinkEffects tr = (reports tr).map Effect.report ++ [Effect.closeSink] := by
  unfold TCPReceiver.Work at h
  by_cases hd : c.dialOk = true
  · rw [if_pos hd] at h
    cases hl : receiverLoop c nbytes fuel ⟨0, 0, 0⟩ with
    | none => rw [hl] at h; simp at h
    | some p =>
      obtain ⟨es, out⟩ := p
      have ho := receiverLoop_onlyReports c nbytes _ _ es out hl
      rw [hl] at h
      cases out with
      | none =>
        simp only [Option.some.injEq] at h
        rw [← h]
        exact (sink_shape_of_loop es ho).2
      | some s =>
        simp only [Option.some.injEq] at h
        rw [← h]
        exact (sink_shape_of_loop es ho).1 _
  · rw [if_neg hd] at h
    simp only [Option.some.injEq] at h
    rw [← h]
    rfl

/-- C12: `TCPSender.Work` always returns. `TCPReceiver.Work` returns at once
after a failed dial, and within `nbytes + 1` passes when every read either
fails (with any count, 0 included) or returns at least one byte, whatever the
stop channel does. On every run that returns, whatever the exit path, the
effects on the report sink are the reports followed by exactly one close, which
is last; after a failed dial the trace is the close alone. -/
theorem sink_gets_reports_then_one_close (c : Conn) (nbytes : Nat) (hu : nbytes < U64) :
    (∃ t, TCPSender.Work c nbytes = some t ∧
      sinkEffects t = (reports t).map Effect.report ++ [Effect.closeSink] ∧
      (c.dialOk = false → t = [Effect.closeSink])) ∧
    (∀ fuel tr, TCPReceiver.Work c nbytes fuel = some tr →
      sinkEffects tr = (reports tr).map Effect.report ++ [Effect.closeSink]) ∧
    (c.dialOk = false → ∀ f, TCPReceiver.Work c nbytes f = some [Effect.closeSink]) ∧
    ((∀ k, (c.xfer k pktsize).2 = true ∨
        (1 ≤ (c.xfer k pktsize).1 ∧ (c.xfer k pktsize).1 ≤ 8192)) →
      nbytes + 8192 ≤ U64 → ∀ fuel, nbytes < fuel →
        ∃ tr, TCPReceiver.Work c nbytes fuel = some tr ∧
          sinkEffects tr = (reports tr).map Effect.report ++ [Effect.closeSink]) := by
  refine ⟨?_, ?_, ?_, ?_⟩
  · obtain ⟨t, ht⟩ := Option.isSome_iff_exists.mp (senderWork_isSome c nbytes hu)
    refine ⟨t, ht, ?_, ?_⟩
    · unfold TCPSender.Work at ht
      by_cases hd : c.dialOk = true
      · rw [if_pos hd] at ht
        cases hl : senderLoop c nbytes (nbytes + 1) ⟨0, pktsize, pktsize, 0⟩ with
        | none => rw [hl] at ht; simp at ht
        | some p =>
          obtain ⟨es, out⟩ := p
          have ho := senderLoop_onlyReports c nbytes _ _ es out hl
          rw [hl] at ht
          cases out with
          | none =>
            simp only [Option.some.injEq] at ht
            rw [← ht]
            exact (sink_shape_of_loop es ho).2
          | some s =>
            simp only [Option.some.injEq] at ht
            rw [← ht]
            exact (sink_shape_of_loop es ho).1 _
      · rw [if_neg hd] at ht
        simp only [Option.some.injEq] at ht
        rw [← ht]
        rfl
    · intro hd
      unfold TCPSender.Work at ht
      rw [hd] at ht
      simp only [Bool.false_eq_true, if_false, Option.some.injEq] at ht
      exact ht.symm
  · intro fuel tr h
    exact receiverWork_sink_shape c nbytes fuel tr h
  · intro hd f
    unfold TCPReceiver.Work
    rw [hd]
    rfl
  · intro hr hb fuel hf
    have hs := receiverLoop_isSome c nbytes hr hb fuel ⟨0, 0, 0⟩ (by simpa using hf)
    have hsome : (TCPReceiver.Work c nbytes fuel).isSome = true := by
      unfold TCPReceiver.Work
      split
      · cases hl : receiverLoop c nbytes fuel ⟨0, 0, 0⟩ with
        | none => rw [hl] at hs; simp at hs
        | some p =>
          obtain ⟨es, o⟩ := p
          cases o <;> rfl
      · rfl
    obtain ⟨tr, htr⟩ := Option.isSome_iff_exists.mp hsome
    exact ⟨tr, htr, receiverWork_sink_shape c nbytes fuel tr htr⟩

/-- C12 on a connection whose second read fails with 0 bytes: the receiver
reads 8192 bytes, meets the error and returns without a report, closing the
sink; the sender writes one chunk, meets the error and closes the sink. -/
theorem sink_gets_reports_then_one_close_witness :
    300000 < U64 ∧
    (∀ k, (eofConn.xfer k pktsize).2 = true ∨
      (1 ≤ (eofConn.xfer k pktsize).1 ∧ (eofConn.xfer k pktsize).1 ≤ 8192)) ∧
    TCPReceiver.Work eofConn 300000 300001 =
      some [Effect.read 8192, Effect.read 0, Effect.closeConn, Effect.closeSink] ∧
    TCPSender.Work eofConn 300000 =
      some [Effect.write 8192 8192, Effect.write 8192 0, Effect.closeConn, Effect.closeSink] ∧
    (∃ t, TCPSender.Work eofConn 300000 = some t ∧
      sinkEffects t = (reports t).map Effect.report ++ [Effect.closeSink] ∧
      (eofConn.dialOk = false → t = [Effect.closeSink])) ∧
    (∀ fuel tr, TCPReceiver.Work eofConn 300000 fuel = some tr →
      sinkEffects tr = (reports tr).map Effect.report ++ [Effect.closeSink]) ∧
    (eofConn.dialOk = false → ∀ f, TCPReceiver.Work eofConn 300000 f = some [Effect.closeSink]) ∧
    ((∀ k, (eofConn.xfer k pktsize).2 = true ∨
        (1 ≤ (eofConn.xfer k pktsize).1 ∧ (eofConn.xfer k pktsize).1 ≤ 8192)) →
      300000 + 8192 ≤ U64 → ∀ fuel, 300000 < fuel →
        ∃ tr, TCPReceiver.Work eofConn 300000 fuel = some tr ∧
          sinkEffects tr = (reports tr).map Effect.report ++ [Effect.closeSink]) := by
  have hu : 300000 < U64 := by rw [U64_eq]; omega
  have hr : ∀ k, (eofConn.xfer k pktsize).2 = true ∨
      (1 ≤ (eofConn.xfer k pktsize).1 ∧ (eofConn.xfer k pktsize).1 ≤ 8192) := by
    intro k
    by_cases hk : k = 1
    · left; subst hk; rfl
    · right
      have h1 : eofConn.xfer k pktsize = (pktsize, false) := by
        simp [eofConn, hk]
      rw [h1, pktsize_eq]
      exact ⟨by omega, le_refl _⟩
  exact ⟨hu, hr, by decide, by decide, sink_gets_reports_then_one_close eofConn 300000 hu⟩

theorem tidy_new : Server.new.tidy := by
  constructor
  · rfl
  · intro l h; cases h

theorem closeLData_openL_of_tidy (s : Server) (h : s.tidy) : s.closeLData.openL = [] := by
  obtain ⟨h1, _⟩ := h
  unfold Server.closeLData
  cases hl : s.LData with
  | none => rw [hl] at h1; simpa using h1
  | some l =>
    rw [hl] at h1
    simp only [Option.toList] at h1
    simp [h1]

theorem closeLData_bound (s : Server) : s.closeLData.bound = s.bound := by
  unfold Server.closeLData
  cases s.LData <;> rfl

theorem TCPStart_of_binds (s : Server) (env : StartEnv) (h : s.tidy) (hb : env.binds = true) :
    (TCPStart s env).1.LData = some s.bound ∧ (TCPStart s env).1.openL = [s.bound] ∧
    (TCPStart s env).1.bound = s.bound + 1 ∧ (TCPStart s env).2.2 = none ∧
    startEffects s env =
      s.LData.toList.map StartEffect.closeListener ++ [StartEffect.listen s.bound] := by
  have ho := closeLData_openL_of_tidy s h
  have hbd := closeLData_bound s
  unfold StartEnv.binds at hb
  simp only [Bool.and_eq_true] at hb
  obtain ⟨hres, hlis⟩ := hb
  obtain ⟨port, hport⟩ := Option.isSome_iff_exists.mp hlis
  unfold TCPStart startEffects
  simp only [hres, hport, if_true, ho, hbd]
  refine ⟨trivial, trivial, trivial, trivial, ?_⟩
  cases s.LData <;> rfl

theorem TCPStop_tidy (s : Server) (h : s.tidy) : (TCPStop s).1.tidy := by
  have ho := closeLData_openL_of_tidy s h
  unfold TCPStop Server.tidy
  simp only [ho]
  constructor
  · rfl
  · intro l hl; cases hl

theorem serve_tidy (s : Server) (c : Call) (h : s.tidy) (hc : c.startOrStop = true) :
    (serve s c).1.tidy := by
  cases c with
  | start env =>
    obtain ⟨h1, h2, h3, _, _⟩ := TCPStart_of_binds s env h hc
    unfold serve Server.tidy
    simp only [h1, h2, h3]
    constructor
    · rfl
    · intro l hl
      simp only [Option.some.injEq] at hl
      omega
  | stop => exact TCPStop_tidy s h
  | rcv n a copyN => simp [Call.startOrStop] at hc
  | snd n a copyN => simp [Call.startOrStop] at hc

theorem serveAll_tidy (calls : List Call) :
    ∀ s : Server, s.tidy → (∀ c ∈ calls, c.startOrStop = true) → (serveAll s calls).1.tidy := by
  induction calls with
  | nil => intro s h _; exact h
  | cons c cs ih =>
    intro s h hall
    rw [serveAll]
    exact ih (serve s c).1 (serve_tidy s c h (hall c (List.mem_cons_self c cs)))
      (fun d hd => hall d (List.mem_cons_of_mem c hd))

/-- C13: let `s` be the session after any number of calls of a sequence of
`TCPStop` calls and `TCPStart` calls whose bind succeeds, from a fresh session.
Then the open listeners bound by the session are exactly the one in `LData`,
if any (so at most one), and that one is the listener bound last. A further
`TCPStart` whose bind succeeds first closes the listener held, then binds a
new one: afterwards `LData` is the new listener and it is the only one open. -/
theorem start_stop_keep_one_listener (calls : List Call) (k : Nat) (env : StartEnv) (s : Server)
    (h : ∀ c ∈ calls, c.startOrStop = true) (hs : s = (serveAll Server.new (calls.take k)).1)
    (henv : env.binds = true) :
    s.openL = s.LData.toList ∧ s.openL.length ≤ 1 ∧
    (∀ l, s.LData = some l → l + 1 = s.bound) ∧
    startEffects s env =
      s.LData.toList.map StartEffect.closeListener ++ [StartEffect.listen s.bound] ∧
    (TCPStart s env).1.LData = some s.bound ∧ (TCPStart s env).1.openL = [s.bound] ∧
    (TCPStart s env).1.bound = s.bound + 1 ∧ (TCPStart s env).2.2 = none := by
  have ht : s.tidy := by
    rw [hs]
    exact serveAll_tidy (calls.take k) Server.new tidy_new
      (fun c hc => h c (List.mem_of_mem_take hc))
  obtain ⟨h1, h2, h3, h4, h5⟩ := TCPStart_of_binds s env ht henv
  refine ⟨ht.1, ?_, ht.2, h5, h1, h2, h3, h4⟩
  rw [ht.1]
  cases s.LData <;> simp [Option.toList]
theorem ofInt64_toInt64 (n : Nat) (hn : n < 2 ^ 63) : ofInt64 (toInt64 n) = n := by
  have h1 : n % U64 = n := Nat.mod_eq_of_lt (by rw [U64_eq]; omega)
  unfold ofInt64 toInt64
  rw [h1, if_pos hn, U64_eq]
  push_cast
  omega

/-- The three ways the common body of `TCPRcv` and `TCPSnd` can go, for a
count below 2^63 and with `io.CopyN` returning a nil error only when it copied
the whole count: the call does not return exactly when the accept timer fired
before the send on `stop`; when it returns, it is with an error and `*r = 0` or
with a nil error and `*r = n`. -/
theorem transfer_cases (s : Server) (n : Nat) (a : Accept) (copyN : Int → Int × Bool)
    (hn : n < 2 ^ 63) (hcopy : ∀ m, (copyN m).2 = false → (copyN m).1 = m) :
    ((transfer s n a copyN).2.1 = Reply.blocked ↔
      ∃ l, s.LData = some l ∧ l ∈ s.openL ∧ (a = Accept.timeout ∨ a = Accept.connLate)) ∧
    (∀ r e, (transfer s n a copyN).2.1 = Reply.returned r e →
      (e ≠ none ∧ r = 0) ∨ (e = none ∧ r = n)) := by
  have hok : (copyN (toInt64 n)).2 = false → ofInt64 (copyN (toInt64 n)).1 = n := by
    intro h
    rw [hcopy _ h, ofInt64_toInt64 n hn]
  unfold transfer timedaccept
  cases hl : s.LData with
  | none => simp
  | some l =>
    by_cases hmem : l ∈ s.openL
    · cases a with
      | conn =>
        simp only [hmem, if_true]
        by_cases hc : (copyN (toInt64 n)).2 = true
        · simp [hc]
        · have hc2 : (copyN (toInt64 n)).2 = false := by simpa using hc
          simp [hc2, hok hc2]
      | fails => simp [hmem]
      | timeout => simp [hmem]
      | connLate => simp [hmem]
    · simp [hmem]

/-- C13 after two successful `TCPStart` calls: the session holds listener 1,
the only one open; a third `TCPStart` closes it and binds listener 2. -/
theorem start_stop_keep_one_listener_witness :
    ((∀ c ∈ [Call.start goodStart, Call.start goodStart, Call.stop, Call.start goodStart],
        c.startOrStop = true) ∧
      (⟨some 1, true, true, [1], 2⟩ : Server) =
        (serveAll Server.new
          ([Call.start goodStart, Call.start goodStart, Call.stop, Call.start goodStart].take
            2)).1 ∧
      goodStart.binds = true) ∧
    (([1] : List Nat) = (some 1 : Option Nat).toList ∧ ([1] : List Nat).length ≤ 1 ∧
      (∀ l, (some 1 : Option Nat) = some l → l + 1 = 2) ∧
      startEffects ⟨some 1, true, true, [1], 2⟩ goodStart =
        (some 1 : Option Nat).toList.map StartEffect.closeListener ++ [StartEffect.listen 2] ∧
      (TCPStart ⟨some 1, true, true, [1], 2⟩ goodStart).1.LData = some 2 ∧
      (TCPStart ⟨some 1, true, true, [1], 2⟩ goodStart).1.openL = [2] ∧
      (TCPStart ⟨some 1, true, true, [1], 2⟩ goodStart).1.bound = 2 + 1 ∧
      (TCPStart ⟨some 1, true, true, [1], 2⟩ goodStart).2.2 = none) :=
  have hc : ∀ c ∈ [Call.start goodStart, Call.start goodStart, Call.stop, Call.start goodStart],
      c.startOrStop = true := by
    intro c hc
    simp only [List.mem_cons, List.mem_singleton, List.not_mem_nil, or_false] at hc
    rcases hc with rfl | rfl | rfl | rfl <;> rfl
  ⟨⟨hc, by decide, rfl⟩,
    start_stop_keep_one_listener _ 2 goodStart ⟨some 1, true, true, [1], 2⟩ hc (by decide) rfl⟩

/-- C14 at the upload of 5,000,000 bytes: 38 reports of 131072 and a final
report of 2880, 4,983,616 in all. -/
theorem sender_report_sequence_witness :
    (idealConn.Clean ∧ 5000000 < U64) ∧
    ∃ tr, TCPSender.Work idealConn 5000000 = some tr ∧
      tr = chunkTrace 0 (chunks 5000000) ++
        [Effect.report (lastChunk 5000000), Effect.closeConn, Effect.closeSink] ∧
      reports tr = List.replicate 38 131072 ++ [2880] ∧
      (writes tr).getLast? = some 2880 ∧
      (reports tr).sum = 4983616 ∧
      ((reports tr).sum = 5000000 ↔ 1 ≤ 5000000 % 131072 ∧ 5000000 % 131072 ≤ 8192) :=
  ⟨⟨idealConn_clean, by rw [U64_eq]; omega⟩,
    sender_report_sequence idealConn idealConn_clean 5000000 (by rw [U64_eq]; omega)⟩

/-- C11 (the code departs from the claim): on a session whose listener is
open, when no client connects before the five-second timer fires, the timer
goroutine closes the listener and exits, `AcceptTCP` fails, and the send
`stop <- true` then blocks for ever, nothing being left to receive it. `TCPRcv`
and `TCPSnd` do not return at all: no error and no count reach the caller. -/
theorem transfer_blocks_on_accept_timeout :
    TCPRcv (TCPStart Server.new goodStart).1 5000000 Accept.timeout (fun k => (k, false)) =
      (⟨some 0, true, true, [], 1⟩, Reply.blocked, [SrvEffect.accept 0]) ∧
    TCPSnd (TCPStart Server.new goodStart).1 5000000 Accept.timeout (fun k => (k, false)) =
      (⟨some 0, true, true, [], 1⟩, Reply.blocked, [SrvEffect.accept 0]) := by
  decide

end TCPMeter
